import Mathlib

/-!
Verification of the tycho-indexer core against its specification.

This file is a shallow embedding, in Lean 4, of the parts of the
`tycho-indexer` repository that its specification makes checkable claims
about:

* the substreams message decoder
  (`tycho-indexer/src/extractor/protobuf_deserialisation.rs`),
* the contract-state version resolution
  (`tycho-indexer/src/services/rpc.rs`),
* the two EVM account extractors
  (`tycho-ethereum/src/account_extractor/contract.rs`),
* the realtime websocket client (`tycho-client/src/lib.rs`).

Rust `HashMap`s are modelled as association lists with insert-overwrite
semantics, `HashSet`s as duplicate-free lists, byte strings as `List Nat`,
and fallible Rust functions as values of an explicit outcome type that also
records panics.  Network calls of the extractors are modelled by total
response oracles (a fixed, successful RPC replay), as the extractor claims
quantify over responses, not over transport failures.
-/

set_option maxHeartbeats 1000000

namespace Tycho

/-! ## Association-list maps (model of Rust `HashMap`)

`mapInsert` models `HashMap::insert`: it overwrites the value of an
existing key in place and otherwise appends the new binding. -/

def mapInsert {K V : Type} [DecidableEq K] (m : List (K × V)) (k : K) (v : V) :
    List (K × V) :=
  match m with
  | [] => [(k, v)]
  | (k', v') :: rest =>
    if k' = k then (k, v) :: rest else (k', v') :: mapInsert rest k v

def mapLookup {K V : Type} [DecidableEq K] (m : List (K × V)) (k : K) : Option V :=
  match m with
  | [] => none
  | (k', v) :: rest => if k' = k then some v else mapLookup rest k

/-- Model of `HashSet::insert` on a duplicate-free list. -/
def setInsert {K : Type} [DecidableEq K] (s : List K) (k : K) : List K :=
  if k ∈ s then s else s ++ [k]

theorem mapLookup_insert_self {K V : Type} [DecidableEq K]
    (m : List (K × V)) (k : K) (v : V) :
    mapLookup (mapInsert m k v) k = some v := by
  induction m with
  | nil => simp [mapInsert, mapLookup]
  | cons p rest ih =>
    obtain ⟨k', v'⟩ := p
    by_cases hk : k' = k
    · simp [mapInsert, mapLookup, hk]
    · simp [mapInsert, mapLookup, hk, ih]

theorem mapLookup_insert_ne {K V : Type} [DecidableEq K]
    (m : List (K × V)) (k k' : K) (v : V) (h : k' ≠ k) :
    mapLookup (mapInsert m k v) k' = mapLookup m k' := by
  induction m with
  | nil =>
    simp only [mapInsert, mapLookup]
    rw [if_neg (fun hk => h hk.symm)]
  | cons p rest ih =>
    obtain ⟨ka, va⟩ := p
    simp only [mapInsert]
    by_cases hk : ka = k
    · rw [if_pos hk]
      have h1 : ¬ k = k' := fun hkk => h hkk.symm
      have h2 : ¬ ka = k' := by rw [hk]; exact h1
      simp [mapLookup, h1, h2]
    · rw [if_neg hk]
      simp only [mapLookup]
      by_cases hk' : ka = k'
      · simp [hk']
      · simp [hk', ih]

/-- Every value stored in the map satisfies `P` after an insert, provided the
old values and the inserted value do. -/
theorem mapInsert_values_pred {K V : Type} [DecidableEq K]
    (P : V → Prop) (m : List (K × V)) (k : K) (v : V)
    (hm : ∀ p ∈ m, P p.2) (hv : P v) :
    ∀ p ∈ mapInsert m k v, P p.2 := by
  induction m with
  | nil =>
    intro p hp
    simp only [mapInsert, List.mem_singleton] at hp
    subst hp; exact hv
  | cons q rest ih =>
    obtain ⟨ka, va⟩ := q
    intro p hp
    by_cases hk : ka = k
    · simp only [mapInsert, hk, if_true, List.mem_cons] at hp
      rcases hp with h | h
      · subst h; exact hv
      · exact hm p (List.mem_cons_of_mem _ h)
    · simp only [mapInsert, hk, if_false, List.mem_cons] at hp
      rcases hp with h | h
      · subst h; exact hm (ka, va) (List.mem_cons_self _ _)
      · exact ih (fun q hq => hm q (List.mem_cons_of_mem _ hq)) p h

/-! ## Deduplication (model of collecting into a `HashSet`)

The batched extractor collects its request list into a `HashSet` to drop
duplicates.  The set is modelled as the first-occurrence-order
duplicate-free list; the pipeline and the issued RPC calls are functions of
this set. -/

def dedupGo {α : Type} [DecidableEq α] (seen : List α) : List α → List α
  | [] => []
  | a :: t => if a ∈ seen then dedupGo seen t else a :: dedupGo (a :: seen) t

def dedupKeepFirst {α : Type} [DecidableEq α] (l : List α) : List α :=
  dedupGo [] l

theorem dedupGo_drop_dup {α : Type} [DecidableEq α] (l₁ : List α) :
    ∀ (seen l₂ : List α) (r : α), (r ∈ l₁ ∨ r ∈ seen) →
      dedupGo seen (l₁ ++ r :: l₂) = dedupGo seen (l₁ ++ l₂) := by
  induction l₁ with
  | nil =>
    intro seen l₂ r hr
    rcases hr with h | h
    · exact absurd h (List.not_mem_nil r)
    · simp [dedupGo, h]
  | cons a t ih =>
    intro seen l₂ r hr
    by_cases ha : a ∈ seen
    · simp only [List.cons_append, dedupGo, ha, if_true]
      refine ih seen l₂ r ?_
      rcases hr with h | h
      · rcases List.mem_cons.mp h with h' | h'
        · right; rw [h']; exact ha
        · left; exact h'
      · right; exact h
    · simp only [List.cons_append, dedupGo, ha, if_false]
      have step : dedupGo (a :: seen) (t ++ r :: l₂) = dedupGo (a :: seen) (t ++ l₂) := by
        refine ih (a :: seen) l₂ r ?_
        rcases hr with h | h
        · rcases List.mem_cons.mp h with h' | h'
          · right; rw [h']; exact List.mem_cons_self a seen
          · left; exact h'
        · right; exact List.mem_cons_of_mem a h
      exact congrArg (List.cons a) step

/-- Adding an extra copy of a request that already occurs earlier in the
list does not change the deduplicated list. -/
theorem dedupKeepFirst_drop_dup {α : Type} [DecidableEq α]
    (l₁ l₂ : List α) (r : α) (hr : r ∈ l₁) :
    dedupKeepFirst (l₁ ++ r :: l₂) = dedupKeepFirst (l₁ ++ l₂) :=
  dedupGo_drop_dup l₁ [] l₂ r (Or.inl hr)

/-! ## Chunking (model of Rust slice `chunks`)

Fuel-based recursion (`fuel = l.length` suffices since each chunk of a
positive size consumes at least one element); the `n = 0` and fuel-exhausted
branches are unreachable at the call sites, which pass 100 / 10000. -/

def chunksGo {α : Type} (n : Nat) : Nat → List α → List (List α)
  | _, [] => []
  | 0, l => [l]
  | fuel + 1, l => if n = 0 then [l] else l.take n :: chunksGo n fuel (l.drop n)

def chunksOf {α : Type} (n : Nat) (l : List α) : List (List α) :=
  chunksGo n l.length l

theorem chunksGo_flatten {α : Type} (n : Nat) (fuel : Nat) :
    ∀ l : List α, (chunksGo n fuel l).flatten = l := by
  induction fuel with
  | zero =>
    intro l
    cases l with
    | nil => rfl
    | cons a t => simp [chunksGo]
  | succ fuel ih =>
    intro l
    cases l with
    | nil => rfl
    | cons a t =>
      by_cases hn : n = 0
      · simp [chunksGo, hn]
      · simp only [chunksGo, hn, if_false, List.flatten_cons, ih]
        exact List.take_append_drop n (a :: t)

theorem chunksOf_flatten {α : Type} (n : Nat) (l : List α) :
    (chunksOf n l).flatten = l :=
  chunksGo_flatten n l.length l

/-! ## Last-match selection -/

/-- The last element of `l` satisfying `p`, if any: the "last writer" of a
sequence of keyed writes. -/
def lastWith {α : Type} (p : α → Bool) (l : List α) : Option α :=
  (l.filter p).getLast?

theorem lastWith_append_one {α : Type} (p : α → Bool) (l : List α) (a : α) :
    lastWith p (l ++ [a]) = if p a then some a else lastWith p l := by
  by_cases h : p a
  · simp [lastWith, List.filter_append, h, List.getLast?_append]
  · simp [lastWith, List.filter_append, h]

theorem lastWith_mem_self {α : Type} [DecidableEq α] (l : List α) (a : α)
    (h : a ∈ l) : lastWith (fun x => x = a) l = some a := by
  induction l using List.reverseRecOn with
  | nil => exact absurd h (List.not_mem_nil a)
  | append_singleton l b ih =>
    rw [lastWith_append_one]
    by_cases hb : b = a
    · simp [hb]
    · simp only [hb]
      simp only [decide_eq_true_eq, hb, if_false]
      rcases List.mem_append.mp h with h' | h'
      · exact ih h'
      · simp at h'
        exact absurd h'.symm hb

/-! ## Insertion sort by key

`sort_unstable_by_key` in Rust guarantees that the result is sorted by the
key and is a permutation of the input; the relative order of elements with
equal keys is unspecified.  Insertion sort is the executable representative
used here; theorems about the decoder rely only on sortedness. -/

def insertSortedBy {α : Type} (key : α → Nat) (a : α) : List α → List α
  | [] => [a]
  | b :: t => if key a ≤ key b then a :: b :: t else b :: insertSortedBy key a t

def sortByKey {α : Type} (key : α → Nat) (l : List α) : List α :=
  l.foldr (insertSortedBy key) []

def sortedByKey {α : Type} (key : α → Nat) (l : List α) : Prop :=
  List.Pairwise (fun a b => key a ≤ key b) l

theorem mem_insertSortedBy {α : Type} (key : α → Nat) (a x : α) (l : List α)
    (h : x ∈ insertSortedBy key a l) : x = a ∨ x ∈ l := by
  induction l with
  | nil => simpa [insertSortedBy] using h
  | cons b t ih =>
    simp only [insertSortedBy] at h
    by_cases hc : key a ≤ key b
    · simp only [hc, if_true, List.mem_cons] at h
      rcases h with h | h | h
      · exact Or.inl h
      · exact Or.inr (by simp [h])
      · exact Or.inr (List.mem_cons_of_mem _ h)
    · simp only [hc, if_false, List.mem_cons] at h
      rcases h with h | h
      · exact Or.inr (by simp [h])
      · rcases ih h with h' | h'
        · exact Or.inl h'
        · exact Or.inr (List.mem_cons_of_mem _ h')

theorem sortedByKey_insertSortedBy {α : Type} (key : α → Nat) (a : α) (l : List α)
    (h : sortedByKey key l) : sortedByKey key (insertSortedBy key a l) := by
  induction l with
  | nil => simp [insertSortedBy, sortedByKey]
  | cons b t ih =>
    simp only [insertSortedBy]
    rcases List.pairwise_cons.mp h with ⟨hb, ht⟩
    unfold sortedByKey
    by_cases hc : key a ≤ key b
    · rw [if_pos hc]
      refine List.pairwise_cons.mpr ⟨?_, h⟩
      intro x hx
      rcases List.mem_cons.mp hx with h' | h'
      · rw [h']; exact hc
      · exact le_trans hc (hb x h')
    · rw [if_neg hc]
      refine List.pairwise_cons.mpr ⟨?_, ih ht⟩
      intro x hx
      rcases mem_insertSortedBy key a x t hx with h' | h'
      · rw [h']; exact le_of_not_le hc
      · exact hb x h'

theorem sortedByKey_sortByKey {α : Type} (key : α → Nat) (l : List α) :
    sortedByKey key (sortByKey key l) := by
  induction l with
  | nil => simp [sortByKey, sortedByKey]
  | cons a t ih => exact sortedByKey_insertSortedBy key a _ ih

/-! ## Byte strings, chains, change kinds -/

/-- Model of `tycho_common::Bytes`: an opaque byte sequence. -/
abbrev Bytes := List Nat

/-- Big-endian interpretation of a byte string as an unsigned integer. -/
def beNat (b : Bytes) : Nat := b.foldl (fun acc x => acc * 256 + x) 0

/-- Model of `tycho_common::models::Chain` restricted to the variants named by the
sources (`services/rpc.rs` maps exactly these three). -/
inductive Chain where
  | Ethereum
  | Starknet
  | ZkSync
deriving DecidableEq, Repr

/-- Model of `tycho_common::models::ChangeType` (decoder-side, no `Unspecified`). -/
inductive ChangeType where
  | Creation
  | Update
  | Deletion
deriving DecidableEq, Repr

/-- An IEEE-754 double, tracked symbolically.  `bytes_to_f64` in
`extractor/u256_num.rs` is not among the given sources; per the spec it
"interprets input as an unsigned big-endian integer; if the magnitude
exceeds `f64::MAX`, returns `NaN`".  The embedding keeps the exact integer
and records the NaN case; IEEE rounding is not modelled. -/
inductive F64Model where
  | nan
  | ofInteger (n : Nat)
deriving DecidableEq, Repr

/-- Largest finite `f64` as an exact integer, `(2^53 - 1) * 2^971`, written
as a numeral so that kernel evaluation needs no deep `Nat.pow` recursion. -/
def f64MaxNat : Nat := 179769313486231570814527423731704356798070567525844996598917476803157260780028538760589558632766878171540458953514382464234321326889464182768467546703537516986049910576551282076245490090389328944075868508455133942304583236903222948165808559332123348274797826204144723168738177180919299881250404026184124858368

/-- The numeral `f64MaxNat` is the claimed power product. -/
theorem f64MaxNat_eq : f64MaxNat = (2 ^ 53 - 1) * 2 ^ 971 := by norm_num [f64MaxNat]

/-- Modelled from the spec: `u256_num::bytes_to_f64` (module not under the
given sources); §4.1: big-endian unsigned interpretation, `NaN` beyond
`f64::MAX`.  The call site uses `.unwrap_or(f64::NAN)`, so the model folds
the failure case into `nan` directly. -/
def bytes_to_f64 (b : Bytes) : F64Model :=
  if beNat b ≤ f64MaxNat then .ofInteger (beNat b) else .nan

/-- Wrapping cast `u64 as i64` (used on the protobuf timestamp). -/
def u64AsI64 (n : Nat) : Int :=
  if n < 2 ^ 63 then (n : Int) else (n : Int) - 2 ^ 64

/-- Seconds-since-epoch wall clock (`chrono::NaiveDateTime`), identified
with its timestamp. -/
abbrev NaiveDateTime := Int

/-- Model of `chrono::NaiveDateTime::from_timestamp_opt(secs, 0)`: defined exactly
for timestamps representable by chrono (years `-262144..=262143`), i.e.
`secs ∈ [-8334632851200, 8210298412799]`. -/
def fromTimestampOpt (secs : Int) : Option NaiveDateTime :=
  if -8334632851200 ≤ secs ∧ secs ≤ 8210298412799 then some secs else none

/-! ## UTF-8 (model of Rust `String::from_utf8`) -/

def isUtf8Cont (b : Nat) : Bool := 0x80 ≤ b && b < 0xC0

/-- Decode a byte sequence as UTF-8 into its scalar values, rejecting
overlong forms, surrogates and out-of-range sequences, exactly as Rust's
`String::from_utf8` does. -/
def utf8CodePoints : List Nat → Option (List Nat)
  | [] => some []
  | b :: rest =>
    if b < 0x80 then (utf8CodePoints rest).map (fun t => b :: t)
    else if b < 0xC2 then none
    else if b < 0xE0 then
      match rest with
      | b1 :: rest2 =>
        if isUtf8Cont b1 then
          (utf8CodePoints rest2).map (fun t => ((b - 0xC0) * 0x40 + (b1 - 0x80)) :: t)
        else none
      | [] => none
    else if b < 0xF0 then
      match rest with
      | b1 :: b2 :: rest2 =>
        if (if b = 0xE0 then 0xA0 ≤ b1 && b1 < 0xC0
            else if b = 0xED then 0x80 ≤ b1 && b1 < 0xA0
            else isUtf8Cont b1) && isUtf8Cont b2 then
          (utf8CodePoints rest2).map
            (fun t => ((b - 0xE0) * 0x1000 + (b1 - 0x80) * 0x40 + (b2 - 0x80)) :: t)
        else none
      | _ => none
    else if b < 0xF5 then
      match rest with
      | b1 :: b2 :: b3 :: rest2 =>
        if (if b = 0xF0 then 0x90 ≤ b1 && b1 < 0xC0
            else if b = 0xF4 then 0x80 ≤ b1 && b1 < 0x90
            else isUtf8Cont b1) && isUtf8Cont b2 && isUtf8Cont b3 then
          (utf8CodePoints rest2).map
            (fun t => ((b - 0xF0) * 0x40000 + (b1 - 0x80) * 0x1000 +
                       (b2 - 0x80) * 0x40 + (b3 - 0x80)) :: t)
        else none
      | _ => none
    else none

/-- Rust `String::from_utf8` on a byte vector. -/
def stringFromUtf8 (l : List Nat) : Option String :=
  (utf8CodePoints l).map (fun cps => String.mk (cps.map Char.ofNat))

/-! ## Rust outcomes

A fallible Rust computation either returns `Ok`, returns `Err`, or panics
(`expect` / `panic!` never return).  The decoder's `expect` calls are
modelled by the third constructor. -/

inductive RustOutcome (ε α : Type) where
  | ok (a : α)
  | err (e : ε)
  | panics (msg : String)
deriving DecidableEq, Repr

namespace RustOutcome

def map {ε α β : Type} (f : α → β) : RustOutcome ε α → RustOutcome ε β
  | .ok a => .ok (f a)
  | .err e => .err e
  | .panics m => .panics m

def bind {ε α β : Type} : RustOutcome ε α → (α → RustOutcome ε β) → RustOutcome ε β
  | .ok a, f => f a
  | .err e, _ => .err e
  | .panics m, _ => .panics m

instance {ε : Type} : Monad (RustOutcome ε) where
  pure := .ok
  bind := RustOutcome.bind
  map := RustOutcome.map

def isOk {ε α : Type} : RustOutcome ε α → Bool
  | .ok _ => true
  | _ => false

end RustOutcome

/-- Sequential decoding of a list, stopping at the first error — the shape
of Rust's `collect::<Result<Vec<_>, _>>()` and of the decoder's `for`
loops that push into a vector. -/
def outMapM {ε α β : Type} (f : α → RustOutcome ε β) : List α → RustOutcome ε (List β)
  | [] => .ok []
  | a :: t =>
    match f a with
    | .ok b => (outMapM f t).map (fun bs => b :: bs)
    | .err e => .err e
    | .panics m => .panics m

theorem outMapM_ok_of_mem {ε α β : Type} (f : α → RustOutcome ε β) (l : List α)
    (bs : List β) (h : outMapM f l = .ok bs) :
    ∀ a ∈ l, ∃ b, f a = .ok b := by
  induction l generalizing bs with
  | nil => intro a ha; exact absurd ha (List.not_mem_nil a)
  | cons x t ih =>
    intro a ha
    simp only [outMapM] at h
    cases hx : f x with
    | ok b =>
      rw [hx] at h
      cases ht : outMapM f t with
      | ok bs' =>
        rcases List.mem_cons.mp ha with h' | h'
        · exact ⟨b, by rw [h', hx]⟩
        · exact ih bs' ht a h'
      | err e => rw [ht] at h; exact absurd h (by simp [RustOutcome.map])
      | panics m => rw [ht] at h; exact absurd h (by simp [RustOutcome.map])
    | err e => rw [hx] at h; exact absurd h (by simp)
    | panics m => rw [hx] at h; exact absurd h (by simp)

/-! ## Substreams protobuf messages (`tycho_substreams::pb::tycho::evm::v1`)

Protobuf `bytes` fields are byte lists, `string` fields are `String`,
`optional` message fields are `Option`.  Field names follow the Rust
generated structs; `from` is a Lean keyword and becomes `from_`. -/

namespace pb

inductive ChangeType where
  | Unspecified
  | Creation
  | Update
  | Deletion
deriving DecidableEq, Repr

structure Block where
  number : Nat        -- u64
  hash : Bytes
  parent_hash : Bytes
  ts : Nat            -- u64, seconds
deriving DecidableEq, Repr

structure Transaction where
  hash : Bytes
  from_ : Bytes       -- `from` in the source
  to_ : Bytes      -- `to` in the source (Lean keyword)
  index : Nat         -- u64
deriving DecidableEq, Repr

structure Attribute where
  name : String
  value : Bytes
  change : ChangeType
deriving DecidableEq, Repr

structure EntityChanges where
  component_id : String
  attributes : List Attribute
deriving DecidableEq, Repr

/-- Only the `name` field of the protocol-type message is read by the
decoder (`protobuf_deserialisation.rs` uses `protocol_type.name` alone). -/
structure ProtocolType where
  name : String
deriving DecidableEq, Repr

structure ProtocolComponent where
  id : String
  tokens : List Bytes
  contracts : List Bytes
  static_att : List Attribute
  change : ChangeType
  protocol_type : Option ProtocolType
deriving DecidableEq, Repr

structure BalanceChange where
  token : Bytes
  balance : Bytes
  component_id : Bytes  -- proto `bytes`, utf8-decoded by the decoder
deriving DecidableEq, Repr

structure AccountBalanceChange where
  token : Bytes
  balance : Bytes
deriving DecidableEq, Repr

structure ContractSlot where
  slot : Bytes
  value : Bytes
deriving DecidableEq, Repr

structure ContractChange where
  address : Bytes
  balance : Bytes
  code : Bytes
  slots : List ContractSlot
  change : ChangeType
  token_balances : List AccountBalanceChange
deriving DecidableEq, Repr

structure EntryPoint where
  id : String
  target : Bytes
  signature : String
  component_id : String
deriving DecidableEq, Repr

structure RpcTraceData where
  caller : Option Bytes
  calldata : Bytes
deriving DecidableEq, Repr

inductive TraceData where
  | Rpc (rpc_data : RpcTraceData)
deriving DecidableEq, Repr

structure EntryPointParams where
  entrypoint_id : String
  component_id : Option String
  trace_data : Option TraceData
deriving DecidableEq, Repr

structure TransactionEntityChanges where
  tx : Option Transaction
  entity_changes : List EntityChanges
  component_changes : List ProtocolComponent
  balance_changes : List BalanceChange
deriving DecidableEq, Repr

structure TransactionChanges where
  tx : Option Transaction
  contract_changes : List ContractChange
  entity_changes : List EntityChanges
  component_changes : List ProtocolComponent
  balance_changes : List BalanceChange
  entrypoints : List EntryPoint
  entrypoint_params : List EntryPointParams
deriving DecidableEq, Repr

structure TransactionContractChanges where
  tx : Option Transaction
  contract_changes : List ContractChange
  component_changes : List ProtocolComponent
  balance_changes : List BalanceChange
deriving DecidableEq, Repr

structure StorageChanges where
  address : Bytes
  slots : List ContractSlot
deriving DecidableEq, Repr

structure TransactionStorageChanges where
  tx : Option Transaction
  storage_changes : List StorageChanges
deriving DecidableEq, Repr

structure BlockContractChanges where
  block : Option Block
  changes : List TransactionContractChanges
deriving DecidableEq, Repr

structure BlockEntityChanges where
  block : Option Block
  changes : List TransactionEntityChanges
deriving DecidableEq, Repr

structure BlockChanges where
  block : Option Block
  changes : List TransactionChanges
  storage_changes : List TransactionStorageChanges
deriving DecidableEq, Repr

end pb

/-! ## Decoded models (`tycho_common::models` / `extractor::models`)

The model structs live in the `tycho-common` crate and
`tycho-indexer/src/extractor/models.rs`, outside the given sources; their
fields and plain-constructor `new` functions are fixed by how
`protobuf_deserialisation.rs` constructs and consumes them. -/

/-- Model of `ExtractionError` — only the two variants the decoder produces
(`extractor/mod.rs` is not among the given sources; spec §4.2 fixes the
taxonomy to `Empty` and `DecodeError`). -/
inductive ExtractionError where
  | Empty
  | DecodeError (reason : String)
deriving DecidableEq, Repr

/-- Outcome of a decoder function. -/
abbrev DecOut (α : Type) := RustOutcome ExtractionError α

structure Transaction where
  hash : Bytes
  block_hash : Bytes
  from_ : Bytes       -- `from` in the source
  to_ : Option Bytes  -- `to` in the source (Lean keyword)
  index : Nat
deriving DecidableEq, Repr

structure Block where
  chain : Chain
  number : Nat
  hash : Bytes
  parent_hash : Bytes
  ts : NaiveDateTime
deriving DecidableEq, Repr

/-- Model of `AccountDelta` with its `new(chain, address, slots, balance, code,
change)` constructor order. -/
structure AccountDelta where
  chain : Chain
  address : Bytes
  slots : List (Bytes × Option Bytes)
  balance : Option Bytes
  code : Option Bytes
  change : ChangeType
deriving DecidableEq, Repr

structure AccountBalance where
  token : Bytes
  balance : Bytes
  modify_tx : Bytes
  account : Bytes
deriving DecidableEq, Repr

structure ComponentBalance where
  token : Bytes
  balance : Bytes
  balance_float : F64Model
  modify_tx : Bytes
  component_id : String
deriving DecidableEq, Repr

structure ProtocolComponent where
  id : String
  protocol_type_name : String
  protocol_system : String
  tokens : List Bytes
  contract_addresses : List Bytes
  static_attributes : List (String × Bytes)
  chain : Chain
  change : ChangeType
  creation_tx : Bytes
  created_at : NaiveDateTime
deriving DecidableEq, Repr

structure ProtocolComponentStateDelta where
  component_id : String
  updated_attributes : List (String × Bytes)
  deleted_attributes : List String
deriving DecidableEq, Repr

structure EntryPoint where
  external_id : String
  target : Bytes
  signature : String
deriving DecidableEq, Repr

structure RPCTracerParams where
  caller : Option Bytes
  calldata : Bytes
deriving DecidableEq, Repr

inductive TracingParams where
  | RPCTracer (params : RPCTracerParams)
deriving DecidableEq, Repr

structure TxWithChanges where
  tx : Transaction
  protocol_components : List (String × ProtocolComponent)
  account_deltas : List (Bytes × AccountDelta)
  state_updates : List (String × ProtocolComponentStateDelta)
  balance_changes : List (String × List (Bytes × ComponentBalance))
  account_balance_changes : List (Bytes × List (Bytes × AccountBalance))
  entrypoints : List (String × List EntryPoint)
  entrypoint_params : List (String × List (TracingParams × Option String))
deriving DecidableEq, Repr

structure ProtocolChangesWithTx where
  new_protocol_components : List (String × ProtocolComponent)
  protocol_states : List (String × ProtocolComponentStateDelta)
  balance_changes : List (String × List (Bytes × ComponentBalance))
  tx : Transaction
deriving DecidableEq, Repr

/-- Model of `AccountChangesWithTx` with its `new(account_deltas, protocol_components,
component_balances, account_balance_changes, tx)` constructor order. -/
structure AccountChangesWithTx where
  account_deltas : List (Bytes × AccountDelta)
  protocol_components : List (String × ProtocolComponent)
  component_balances : List (String × List (Bytes × ComponentBalance))
  account_balance_changes : List (Bytes × List (Bytes × AccountBalance))
  tx : Transaction
deriving DecidableEq, Repr

structure TxWithStorageChanges where
  tx : Transaction
  storage_changes : List (Bytes × List (Bytes × Bytes))
deriving DecidableEq, Repr

/-- Model of `BlockContractChanges::new(extractor, chain, block,
finalized_block_height, revert, tx_updates)`. -/
structure BlockContractChanges where
  extractor : String
  chain : Chain
  block : Block
  finalized_block_height : Nat
  revert : Bool
  tx_updates : List AccountChangesWithTx
deriving DecidableEq, Repr

structure BlockEntityChanges where
  extractor : String
  chain : Chain
  block : Block
  finalized_block_height : Nat
  revert : Bool
  txs_with_update : List ProtocolChangesWithTx
deriving DecidableEq, Repr

/-- Model of `BlockChanges::new(extractor, chain, block, finalized_block_height,
revert, txs_with_update, block_storage_changes)`. -/
structure BlockChanges where
  extractor : String
  chain : Chain
  block : Block
  finalized_block_height : Nat
  revert : Bool
  txs_with_update : List TxWithChanges
  block_storage_changes : List TxWithStorageChanges
deriving DecidableEq, Repr

/-! ## The decoder (`extractor/protobuf_deserialisation.rs`)

Each `impl TryFromMessage for T` becomes `T.try_from_message`.  `collect()`
into a `HashMap` and `HashMap::insert` become folds of `mapInsert`;
`HashSet::insert` becomes `setInsert`; the `?` operator becomes `bind` on
`DecOut`; `expect` on a missing value becomes the `panics` outcome. -/

/-- Model of `collect::<HashMap<_, _>>()` over key-value pairs. -/
def collectMap {K V : Type} [DecidableEq K] (l : List (K × V)) : List (K × V) :=
  l.foldl (fun acc p => mapInsert acc p.1 p.2) []

/-- A `for` loop threading a fallible accumulator update. -/
def foldDecode {α σ : Type} (step : σ → α → DecOut σ) (init : σ) :
    List α → DecOut σ
  | [] => .ok init
  | a :: t =>
    match step init a with
    | .ok s => foldDecode step s t
    | .err e => .err e
    | .panics m => .panics m

def ChangeType.try_from_message (args : pb.ChangeType) : DecOut ChangeType :=
  match args with
  | .Creation => .ok .Creation
  | .Update => .ok .Update
  | .Deletion => .ok .Deletion
  | .Unspecified =>
    .err (.DecodeError "Unknown ChangeType enum member encountered: Unspecified")

def AccountDelta.try_from_message (msg : pb.ContractChange) (chain : Chain) :
    DecOut AccountDelta :=
  (ChangeType.try_from_message msg.change).map (fun change =>
    { chain
      address := msg.address
      slots := collectMap (msg.slots.map (fun cs => (cs.slot, some cs.value)))
      balance := if msg.balance ≠ [] then some msg.balance else none
      code := if msg.code ≠ [] then some msg.code else none
      change })

def AccountBalance.try_from_message (msg : pb.AccountBalanceChange)
    (addr : Bytes) (tx : Transaction) : DecOut AccountBalance :=
  .ok { token := msg.token, balance := msg.balance, modify_tx := tx.hash, account := addr }

def Block.try_from_message (msg : pb.Block) (chain : Chain) : DecOut Block :=
  match fromTimestampOpt (u64AsI64 msg.ts) with
  | some ts =>
    .ok { chain, number := msg.number, hash := msg.hash, parent_hash := msg.parent_hash, ts }
  | none => .err (.DecodeError s!"Failed to convert timestamp {msg.ts} to datetime!")

def Transaction.try_from_message (msg : pb.Transaction) (block_hash : Bytes) :
    DecOut Transaction :=
  .ok { hash := msg.hash
        block_hash
        from_ := msg.from_
        to_ := if msg.to_ ≠ [] then some msg.to_ else none
        index := msg.index }

def ComponentBalance.try_from_message (msg : pb.BalanceChange) (tx : Transaction) :
    DecOut ComponentBalance :=
  let balance_float := bytes_to_f64 msg.balance  -- `.unwrap_or(f64::NAN)` folded into the model
  match stringFromUtf8 msg.component_id with
  | some component_id =>
    .ok { token := msg.token, balance := msg.balance, balance_float
          modify_tx := tx.hash, component_id }
  | none => .err (.DecodeError "invalid utf-8 sequence")

/-- The registry argument `&HashMap<String, ProtocolType>` is consumed only
through `contains_key`, so it is embedded as its key set. -/
def ProtocolComponent.try_from_message (msg : pb.ProtocolComponent) (chain : Chain)
    (protocol_system : String) (protocol_types : List String)
    (tx_hash : Bytes) (creation_ts : NaiveDateTime) : DecOut ProtocolComponent :=
  let tokens := msg.tokens
  let contract_ids := msg.contracts
  let static_attributes :=
    collectMap (msg.static_att.map (fun attrib => (attrib.name, attrib.value)))
  match msg.protocol_type with
  | none => .err (.DecodeError "Missing protocol type")
  | some protocol_type =>
    if protocol_type.name ∉ protocol_types then
      .err (.DecodeError s!"Unknown protocol type name: {protocol_type.name}")
    else
      (ChangeType.try_from_message msg.change).map (fun change =>
        { id := msg.id
          protocol_type_name := protocol_type.name
          protocol_system
          tokens
          contract_addresses := contract_ids
          static_attributes
          chain
          change
          creation_tx := tx_hash
          created_at := creation_ts })

def ProtocolComponentStateDelta.attrLoop :
    List pb.Attribute → List (String × Bytes) → List String →
    DecOut (List (String × Bytes) × List String)
  | [], updates, deletions => .ok (updates, deletions)
  | attrib :: rest, updates, deletions =>
    match ChangeType.try_from_message attrib.change with
    | .ok .Update =>
      ProtocolComponentStateDelta.attrLoop rest
        (mapInsert updates attrib.name attrib.value) deletions
    | .ok .Creation =>
      ProtocolComponentStateDelta.attrLoop rest
        (mapInsert updates attrib.name attrib.value) deletions
    | .ok .Deletion =>
      ProtocolComponentStateDelta.attrLoop rest updates (setInsert deletions attrib.name)
    | .err e => .err e
    | .panics m => .panics m

def ProtocolComponentStateDelta.try_from_message (msg : pb.EntityChanges) :
    DecOut ProtocolComponentStateDelta :=
  (ProtocolComponentStateDelta.attrLoop msg.attributes [] []).map (fun ud =>
    { component_id := msg.component_id
      updated_attributes := ud.1
      deleted_attributes := ud.2 })

def EntryPoint.try_from_message (msg : pb.EntryPoint) : DecOut EntryPoint :=
  .ok { external_id := msg.id, target := msg.target, signature := msg.signature }

def TracingParams.try_from_message (msg : pb.EntryPointParams) : DecOut TracingParams :=
  match msg.trace_data with
  | none => .err (.DecodeError "Missing trace data in EntryPointParams")
  | some (.Rpc rpc_data) =>
    .ok (.RPCTracer { caller := rpc_data.caller, calldata := rpc_data.calldata })

/-- The "parse the state updates" loop shared by
`ProtocolChangesWithTx::try_from_message` and
`TxWithChanges::try_from_message`: vacant entries are inserted, occupied
entries are overwritten (with a warning logged, a side effect outside the
value semantics). -/
def stateUpdateStep (s : List (String × ProtocolComponentStateDelta))
    (state_msg : pb.EntityChanges) : DecOut (List (String × ProtocolComponentStateDelta)) :=
  (ProtocolComponentStateDelta.try_from_message state_msg).map (fun state =>
    mapInsert s state.component_id state)

/-- Component loop body keyed by the decoded component's `id`
(`TxWithChanges` and `BlockContractChanges`). -/
def componentStepById (chain : Chain) (protocol_system : String)
    (protocol_types : List String) (tx_hash : Bytes) (ts : NaiveDateTime)
    (s : List (String × ProtocolComponent)) (change : pb.ProtocolComponent) :
    DecOut (List (String × ProtocolComponent)) :=
  (ProtocolComponent.try_from_message change chain protocol_system protocol_types
      tx_hash ts).map (fun component => mapInsert s component.id component)

/-- Component loop body keyed by the message's `id` field
(`ProtocolChangesWithTx`); the two ids coincide for decoded components. -/
def componentStepByMsgId (chain : Chain) (protocol_system : String)
    (protocol_types : List String) (tx_hash : Bytes) (ts : NaiveDateTime)
    (s : List (String × ProtocolComponent)) (change : pb.ProtocolComponent) :
    DecOut (List (String × ProtocolComponent)) :=
  (ProtocolComponent.try_from_message change chain protocol_system protocol_types
      tx_hash ts).map (fun component => mapInsert s change.id component)

/-- Account-delta loop body (`contract_changes` → `AccountDelta` keyed by
address). -/
def accountDeltaStep (chain : Chain) (s : List (Bytes × AccountDelta))
    (contract_change : pb.ContractChange) : DecOut (List (Bytes × AccountDelta)) :=
  (AccountDelta.try_from_message contract_change chain).map (fun update =>
    mapInsert s update.address update)

/-- Component-balance loop body of `ProtocolChangesWithTx`: nested insert
keyed by the decoded balance's `component_id` and `token`. -/
def componentBalanceStep (tx : Transaction)
    (s : List (String × List (Bytes × ComponentBalance)))
    (balance_change : pb.BalanceChange) :
    DecOut (List (String × List (Bytes × ComponentBalance))) :=
  (ComponentBalance.try_from_message balance_change tx).map (fun component_balance =>
    mapInsert s component_balance.component_id
      (mapInsert ((mapLookup s component_balance.component_id).getD [])
        component_balance.token component_balance))

/-- Component-balance loop body of `TxWithChanges` and
`BlockContractChanges`: the component id is utf8-decoded first, then the
balance decoded and inserted under `(component_id, token)`. -/
def componentBalanceUtf8Step (tx : Transaction)
    (s : List (String × List (Bytes × ComponentBalance)))
    (balance_change : pb.BalanceChange) :
    DecOut (List (String × List (Bytes × ComponentBalance))) :=
  match stringFromUtf8 balance_change.component_id with
  | none => .err (.DecodeError "invalid utf-8 sequence")
  | some component_id =>
    let token_address := balance_change.token
    (ComponentBalance.try_from_message balance_change tx).map (fun balance =>
      mapInsert s component_id
        (mapInsert ((mapLookup s component_id).getD []) token_address balance))

/-- Account-balance inner loop body (`token_balances` of one contract
change). -/
def accountBalanceInnerStep (tx : Transaction) (account_addr : Bytes)
    (s : List (Bytes × List (Bytes × AccountBalance)))
    (balance_change : pb.AccountBalanceChange) :
    DecOut (List (Bytes × List (Bytes × AccountBalance))) :=
  let token_address := balance_change.token
  (AccountBalance.try_from_message balance_change account_addr tx).map (fun balance =>
    mapInsert s account_addr
      (mapInsert ((mapLookup s account_addr).getD []) token_address balance))

/-- Account-balance outer loop body (over `contract_changes`). -/
def accountBalanceStep (tx : Transaction)
    (s : List (Bytes × List (Bytes × AccountBalance)))
    (contract_change : pb.ContractChange) :
    DecOut (List (Bytes × List (Bytes × AccountBalance))) :=
  foldDecode (accountBalanceInnerStep tx contract_change.address) s
    contract_change.token_balances

/-- Entrypoint loop body (set-valued map keyed by component id). -/
def entrypointStep (s : List (String × List EntryPoint))
    (msg_entrypoint : pb.EntryPoint) : DecOut (List (String × List EntryPoint)) :=
  let component_id := msg_entrypoint.component_id
  (EntryPoint.try_from_message msg_entrypoint).map (fun entrypoint =>
    mapInsert s component_id
      (setInsert ((mapLookup s component_id).getD []) entrypoint))

/-- Entrypoint-params loop body (set-valued map keyed by entrypoint id). -/
def entrypointParamsStep (s : List (String × List (TracingParams × Option String)))
    (msg_entrypoint_params : pb.EntryPointParams) :
    DecOut (List (String × List (TracingParams × Option String))) :=
  let entrypoint_id := msg_entrypoint_params.entrypoint_id
  let component_id := msg_entrypoint_params.component_id
  (TracingParams.try_from_message msg_entrypoint_params).map (fun tracing_data =>
    mapInsert s entrypoint_id
      (setInsert ((mapLookup s entrypoint_id).getD []) (tracing_data, component_id)))

def ProtocolChangesWithTx.try_from_message (msg : pb.TransactionEntityChanges)
    (block : Block) (protocol_system : String) (protocol_types : List String) :
    DecOut ProtocolChangesWithTx :=
  match msg.tx with
  | none => .panics "TransactionEntityChanges should have a transaction"
  | some txMsg =>
    (Transaction.try_from_message txMsg block.hash).bind (fun tx =>
      (foldDecode (componentStepByMsgId block.chain protocol_system protocol_types
          tx.hash block.ts) [] msg.component_changes).bind (fun comps =>
      (foldDecode stateUpdateStep [] msg.entity_changes).bind (fun states =>
      (foldDecode (componentBalanceStep tx) [] msg.balance_changes).map (fun balances =>
        { new_protocol_components := comps
          protocol_states := states
          balance_changes := balances
          tx }))))

def TxWithChanges.try_from_message (msg : pb.TransactionChanges) (block : Block)
    (protocol_system : String) (protocol_types : List String) : DecOut TxWithChanges :=
  match msg.tx with
  | none => .panics "TransactionChanges should have a transaction"
  | some txMsg =>
    (Transaction.try_from_message txMsg block.hash).bind (fun tx =>
      -- Parse the new protocol components
      (foldDecode (componentStepById block.chain protocol_system protocol_types
          tx.hash block.ts) [] msg.component_changes).bind (fun comps =>
      -- Parse the account updates
      (foldDecode (accountDeltaStep block.chain) [] msg.contract_changes).bind
        (fun accounts =>
      -- Parse the state updates
      (foldDecode stateUpdateStep [] msg.entity_changes).bind (fun states =>
      -- Parse the component balance changes
      (foldDecode (componentBalanceUtf8Step tx) [] msg.balance_changes).bind
        (fun balances =>
      -- Parse the account balance changes
      (foldDecode (accountBalanceStep tx) [] msg.contract_changes).bind (fun acct_bals =>
      -- Parse the entrypoints
      (foldDecode entrypointStep [] msg.entrypoints).bind (fun eps =>
      -- Parse the entrypoint params
      (foldDecode entrypointParamsStep [] msg.entrypoint_params).map (fun ep_params =>
        { tx
          protocol_components := comps
          account_deltas := accounts
          state_updates := states
          balance_changes := balances
          account_balance_changes := acct_bals
          entrypoints := eps
          entrypoint_params := ep_params }))))))))

/-- The body of the per-change loop of
`BlockContractChanges::try_from_message`: a change without a `tx` is
silently skipped (`if let Some(tx) = change.tx` has no `else`). -/
def blockContractChangeStep (chain : Chain) (protocol_system : String)
    (protocol_types : List String) (block : Block)
    (tx_updates : List AccountChangesWithTx) (change : pb.TransactionContractChanges) :
    DecOut (List AccountChangesWithTx) :=
  match change.tx with
  | none => .ok tx_updates
  | some txMsg =>
    (Transaction.try_from_message txMsg block.hash).bind (fun tx =>
      (foldDecode (accountDeltaStep chain) [] change.contract_changes).bind
        (fun account_updates =>
      (foldDecode (componentStepById chain protocol_system protocol_types
          tx.hash block.ts) [] change.component_changes).bind
        (fun protocol_components =>
      (foldDecode (componentBalanceUtf8Step tx) [] change.balance_changes).bind
        (fun balances_changes =>
      (foldDecode (accountBalanceStep tx) [] change.contract_changes).map
        (fun account_balance_changes =>
        tx_updates ++ [{ account_deltas := account_updates
                         protocol_components
                         component_balances := balances_changes
                         account_balance_changes
                         tx }])))))

def BlockContractChanges.try_from_message (msg : pb.BlockContractChanges)
    (extractor : String) (chain : Chain) (protocol_system : String)
    (protocol_types : List String) (finalized_block_height : Nat) :
    DecOut BlockContractChanges :=
  match msg.block with
  | some blockMsg =>
    (Block.try_from_message blockMsg chain).bind (fun block =>
      (foldDecode (blockContractChangeStep chain protocol_system protocol_types block)
          [] msg.changes).map (fun tx_updates =>
        { extractor
          chain
          block
          finalized_block_height
          revert := false
          tx_updates := sortByKey (fun update => update.tx.index) tx_updates }))
  | none => .err .Empty

/-- The per-change mapper of `BlockEntityChanges::try_from_message`: a
missing `tx` fails the decode before `ProtocolChangesWithTx` is entered. -/
def entityTxStep (block : Block) (protocol_system : String)
    (protocol_types : List String) (change : pb.TransactionEntityChanges) :
    DecOut ProtocolChangesWithTx :=
  match change.tx with
  | none => .err (.DecodeError "TransactionEntityChanges misses a transaction")
  | some _ =>
    ProtocolChangesWithTx.try_from_message change block protocol_system protocol_types

def BlockEntityChanges.try_from_message (msg : pb.BlockEntityChanges)
    (extractor : String) (chain : Chain) (protocol_system : String)
    (protocol_types : List String) (finalized_block_height : Nat) :
    DecOut BlockEntityChanges :=
  match msg.block with
  | some blockMsg =>
    (Block.try_from_message blockMsg chain).bind (fun block =>
      (outMapM (entityTxStep block protocol_system protocol_types)
          msg.changes).map (fun txs_with_update =>
        { extractor
          chain
          block
          finalized_block_height
          revert := false
          txs_with_update := sortByKey (fun update => update.tx.index) txs_with_update }))
  | none => .err .Empty

def TxWithStorageChanges.try_from_message (msg : pb.TransactionStorageChanges)
    (block : Block) : DecOut TxWithStorageChanges :=
  match msg.tx with
  | none => .panics "TransactionChanges should have a transaction"
  | some txMsg =>
    (Transaction.try_from_message txMsg block.hash).map (fun tx =>
      { tx
        storage_changes :=
          msg.storage_changes.foldl (fun all contract_changes =>
            mapInsert all contract_changes.address
              (contract_changes.slots.foldl
                (fun sc change => mapInsert sc change.slot change.value) [])) [] })

/-- The per-change mapper of `BlockChanges::try_from_message`: a missing
`tx` fails the decode (with the `TransactionEntityChanges` wording reused
from the source) before `TxWithChanges` is entered. -/
def blockChangesTxStep (block : Block) (protocol_system : String)
    (protocol_types : List String) (change : pb.TransactionChanges) :
    DecOut TxWithChanges :=
  match change.tx with
  | none => .err (.DecodeError "TransactionEntityChanges misses a transaction")
  | some _ =>
    TxWithChanges.try_from_message change block protocol_system protocol_types

def BlockChanges.try_from_message (msg : pb.BlockChanges) (extractor : String)
    (chain : Chain) (protocol_system : String) (protocol_types : List String)
    (finalized_block_height : Nat) : DecOut BlockChanges :=
  match msg.block with
  | some blockMsg =>
    (Block.try_from_message blockMsg chain).bind (fun block =>
      (outMapM (blockChangesTxStep block protocol_system protocol_types)
          msg.changes).bind (fun txs_with_update =>
      (outMapM (fun change => TxWithStorageChanges.try_from_message change block)
          msg.storage_changes).map (fun block_storage_changes =>
        { extractor
          chain
          block
          finalized_block_height
          revert := false
          txs_with_update := sortByKey (fun update => update.tx.index) txs_with_update
          block_storage_changes })))
  | none => .err .Empty

/-! ## Contract-state version resolution (`services/rpc.rs`) -/

namespace dto

inductive Chain where
  | Ethereum
  | Starknet
  | ZkSync
deriving DecidableEq, Repr

/-- The `block` field of `dto::VersionParam`; only `hash`, `chain` and
`number` are read by the conversion, `parent_hash` is carried but unused. -/
structure BlockParam where
  hash : Option Bytes
  parent_hash : Option Bytes
  number : Option Nat
  chain : Option dto.Chain
deriving DecidableEq, Repr

structure VersionParam where
  timestamp : Option NaiveDateTime
  block : Option BlockParam
deriving DecidableEq, Repr

end dto

/-- Model of `impl From<dto::Chain> for Chain` in `services/rpc.rs`. -/
def Chain.fromDto : dto.Chain → Chain
  | .Ethereum => .Ethereum
  | .Starknet => .Starknet
  | .ZkSync => .ZkSync

inductive BlockIdentifier where
  | Hash (hash : Bytes)
  | Number (chain_number : Chain × Nat)
deriving DecidableEq, Repr

inductive BlockOrTimestamp where
  | Block (id : BlockIdentifier)
  | Timestamp (ts : NaiveDateTime)
deriving DecidableEq, Repr

/-- Model of `RpcError`; the `Storage` and `Connection` variants wrap foreign error
types, carried here as strings (only `Parse` is produced by the
conversion under study). -/
inductive RpcError where
  | Parse (s : String)
  | Storage (s : String)
  | Connection (s : String)
deriving DecidableEq, Repr

/-- Model of `impl TryFrom<&dto::VersionParam> for BlockOrTimestamp`
(`services/rpc.rs` lines 78-100).  Match arms in source order. -/
def BlockOrTimestamp.try_from (version : dto.VersionParam) :
    Except RpcError BlockOrTimestamp :=
  match version.timestamp, version.block with
  | _, some block =>
    -- If a full block is provided, we prioritize hash over number and chain
    match block.hash, block.chain, block.number with
    | some hash, _, _ => .ok (.Block (.Hash hash))
    | _, some chain, some number =>
      .ok (.Block (.Number (Chain.fromDto chain, number)))
    | _, _, _ => .error (.Parse "Insufficient block information")
  | some timestamp, none => .ok (.Timestamp timestamp)
  | none, none => .error (.Parse "Missing timestamp or block identifier")

/-! ## Realtime websocket client (`tycho-client/src/lib.rs`) -/

inductive TychoClientError where
  | UriParsing (uri : String) (error : String)
  | FormatRequest (error : String)
  | HttpClient (error : String)
  | ParseResponse (error : String)
deriving DecidableEq, Repr

structure ExtractorIdentity where
  chain : Chain
  name : String
deriving DecidableEq, Repr

structure TychoWsClientImpl where
  uri : String
deriving DecidableEq, Repr

/-- Model of `TychoWsClient::subscribe` for `TychoWsClientImpl`: the body is
`panic!("Not implemented")`, so the call never returns a
`Result<(), TychoClientError>` at all. -/
def TychoWsClientImpl.subscribe (_client : TychoWsClientImpl)
    (_extractor_id : ExtractorIdentity) : RustOutcome TychoClientError Unit :=
  .panics "Not implemented"

/-- Model of `TychoWsClient::unsubscribe` for `TychoWsClientImpl`: also a
`panic!("Not implemented")` stub. -/
def TychoWsClientImpl.unsubscribe (_client : TychoWsClientImpl)
    (_subscription_id : Nat) : RustOutcome TychoClientError Unit :=
  .panics "Not implemented"

/-! ## EVM account extractors (`tycho-ethereum/src/account_extractor/contract.rs`)

The network is modelled by a total response oracle — a fixed, successful
RPC replay.  `debug_storageRangeAt` pagination is modelled by the sequence
of pages the node returns for an address (the loop advances `start_key`
through `next_key` until the node reports no successor; a replay determines
exactly this page sequence). -/

structure StorageSnapshotRequest where
  address : Bytes
  slots : Option (List Bytes)
deriving DecidableEq, Repr

/-- The JSON-RPC requests the extractors can issue. -/
inductive RpcCall where
  | getCode (address : Bytes) (block_number : Nat)
  | getBalance (address : Bytes) (block_number : Nat)
  | getStorageAt (address : Bytes) (slot : Bytes) (block_number : Nat)
  | storageRangeAt (block_hash : Bytes) (address : Bytes)
deriving DecidableEq, Repr

/-- A fixed successful replay of the node's responses. -/
structure RpcReplay where
  code : Bytes → Bytes
  balance : Bytes → Bytes                              -- 32 big-endian bytes
  storageAt : Bytes → Bytes → Bytes                    -- address → slot → value bytes
  storagePages : Bytes → List (List (Bytes × Bytes))   -- debug_storageRangeAt pages

/-- Model of `tycho-ethereum`'s `RPCError`, restricted to the variants the
extractor paths produce: `RequestError` wraps provider failures (carried here
as the format-string prefix of the message) and `UnknownError` the
missing-storage-result case of `get_accounts_at_block`.  Under a successful
replay the only reachable `RequestError` is the one raised when a consumed
response future is awaited again. -/
inductive RPCError where
  | RequestError (msg : String)
  | UnknownError (msg : String)
deriving DecidableEq, Repr

namespace EVMAccountExtractor

/-- Model of `EVMAccountExtractor::get_storage_range`: drain the
`debug_storageRangeAt` pages for the address, inserting every returned
entry into one map. -/
def get_storage_range (replay : RpcReplay) (address : Bytes) :
    List (Bytes × Bytes) :=
  ((replay.storagePages address).flatten).foldl
    (fun all_slots kv => mapInsert all_slots kv.1 kv.2) []

/-- Model of `EVMAccountExtractor::get_accounts_at_block`.  A request's `slots`
refinement is ignored (the source only logs a warning) and the full dump is
always used; every slot value is wrapped in `Some`. -/
def get_accounts_at_block (replay : RpcReplay) (chain : Chain) (_block : Block)
    (requests : List StorageSnapshotRequest) : List (Bytes × AccountDelta) :=
  requests.foldl (fun updates request =>
    let address := request.address
    let balance := some (replay.balance address)
    let code := some (replay.code address)
    let slots := (get_storage_range replay address).foldl
      (fun acc kv => mapInsert acc kv.1 (some kv.2)) []
    mapInsert updates address
      { address, chain, slots, balance, code, change := .Creation }) []

end EVMAccountExtractor

namespace EVMBatchAccountExtractor

def max_batch_size : Nat := 100
def storage_max_batch_size : Nat := 10000

/-- Model of `EVMBatchAccountExtractor::get_storage_range` (page-drain as above). -/
def get_storage_range (replay : RpcReplay) (address : Bytes) :
    List (Bytes × Bytes) :=
  ((replay.storagePages address).flatten).foldl
    (fun all_slots kv => mapInsert all_slots kv.1 kv.2) []

/- One entry of the `storage_requests` vec of `fetch_account_storage`: a
pinned `eth_getStorageAt` response future, modelled as the slot it was
created for (its response under the replay is `storageAt address slot`)
paired with a flag recording whether it has already been awaited.  Awaiting
a future a second time does not yield the response again: the completed
oneshot reports an error, which the `map_err` at the `await` site turns into
`RPCError::RequestError("Failed to collect storage request data: ...")`. -/

/-- Model of the per-batch collection loop of `fetch_account_storage`
(`for (idx, slot) in slot_batch.iter().enumerate()`): `reqs` is the WHOLE
`storage_requests` vec accumulated so far, while `idx` restarts at 0 for
every batch, exactly as in the source.  The value recorded for `slot` is
the response of the future at position `idx` of the vec, with a response of
32 zero bytes stored as `None`; a consumed future at that position fails
the call. -/
def collectBatch (replay : RpcReplay) (address : Bytes) :
    List (Bytes × Bool) → Nat → List Bytes → List (Bytes × Option Bytes) →
    RustOutcome RPCError (List (Bytes × Bool) × List (Bytes × Option Bytes))
  | reqs, _, [], result => .ok (reqs, result)
  | reqs, idx, slot :: rest, result =>
    match reqs[idx]? with
    | none => .panics "index out of bounds"
    | some (future_slot, consumed) =>
      if consumed then
        .err (.RequestError "Failed to collect storage request data")
      else
        let storage_result := replay.storageAt address future_slot
        let value :=
          if storage_result = List.replicate 32 0 then none else some storage_result
        collectBatch replay address (reqs.set idx (future_slot, true)) (idx + 1) rest
          (mapInsert result slot value)

/-- Model of the `for slot_batch in slots.chunks(max_batch_size)` loop of
`fetch_account_storage`.  `storage_requests` is created once, before the
loop, and only ever grows: each batch appends its fresh futures (and sends
the batch, which always succeeds under the replay) before the collection
loop indexes the vec from 0. -/
def fetchChunksLoop (replay : RpcReplay) (address : Bytes) :
    List (List Bytes) → List (Bytes × Bool) → List (Bytes × Option Bytes) →
    RustOutcome RPCError (List (Bytes × Option Bytes))
  | [], _, result => .ok result
  | slot_batch :: rest, storage_requests, result =>
    match collectBatch replay address
        (storage_requests ++ slot_batch.map (fun slot => (slot, false)))
        0 slot_batch result with
    | .ok (reqs, result') => fetchChunksLoop replay address rest reqs result'
    | .err e => .err e
    | .panics m => .panics m

/-- Model of `EVMBatchAccountExtractor::fetch_account_storage`: specific slots
are cut into chunks of `max_batch_size` and fetched through batched
`eth_getStorageAt` calls; a returned value of 32 zero bytes is recorded as
`None`, anything else as `Some` of the returned bytes.  Because the
`storage_requests` vec lives outside the chunk loop while the collection
index restarts at 0 for every chunk, a slot list longer than one chunk
re-awaits the first chunk's consumed futures and the call returns
`RequestError` instead of a map.  Without a slot list, the paginated
`debug_storageRangeAt` dump is used, every value is `Some`, and the call
returns `Ok` early. -/
def fetch_account_storage (replay : RpcReplay) (_block : Block) (max_batch : Nat)
    (request : StorageSnapshotRequest) :
    RustOutcome RPCError (List (Bytes × Option Bytes)) :=
  match request.slots with
  | some slots =>
    fetchChunksLoop replay request.address (chunksOf max_batch slots) [] []
  | none =>
    .ok ((get_storage_range replay request.address).foldl
      (fun result kv => mapInsert result kv.1 (some kv.2)) [])

/-- Model of `EVMBatchAccountExtractor::batch_fetch_account_code_and_balance`:
positionally collected code and balance maps for a chunk. -/
def batch_fetch_account_code_and_balance (replay : RpcReplay)
    (chunk : List StorageSnapshotRequest) :
    List (Bytes × Bytes) × List (Bytes × Bytes) :=
  (chunk.foldl (fun codes request =>
      mapInsert codes request.address (replay.code request.address)) [],
   chunk.foldl (fun balances request =>
      mapInsert balances request.address (replay.balance request.address)) [])

/-- Model of the per-chunk assembly loop of `get_accounts_at_block`
(`for (idx, request) in chunk.iter().enumerate()`): look up the positional
storage result (`storage_results.get(idx)`, failing with `UnknownError`
when absent — unreachable here since `try_join_all` preserves length) and
insert an `AccountDelta` with `change = Creation`. -/
def assembleChunk (chain : Chain) (codes balances : List (Bytes × Bytes))
    (storage_results : List (List (Bytes × Option Bytes))) :
    List StorageSnapshotRequest → Nat → List (Bytes × AccountDelta) →
    RustOutcome RPCError (List (Bytes × AccountDelta))
  | [], _, updates => .ok updates
  | request :: rest, idx, updates =>
    match storage_results[idx]? with
    | none => .err (.UnknownError "Unable to find storage result")
    | some storage =>
      let address := request.address
      let code := mapLookup codes address
      let balance := mapLookup balances address
      assembleChunk chain codes balances storage_results rest (idx + 1)
        (mapInsert updates address
          { address, chain, slots := storage, balance, code, change := .Creation })

/-- Model of the `for chunk in unique_requests.chunks(max_batch_size)` loop
of `get_accounts_at_block`: per chunk, batch-fetch code and balances, fetch
every request's storage (`try_join_all` is modelled as
first-error-in-request-order, the determinisation consistent with a fixed
replay), then assemble the deltas; any error aborts the whole call. -/
def chunksLoop (replay : RpcReplay) (chain : Chain) (block : Block) :
    List (List StorageSnapshotRequest) → List (Bytes × AccountDelta) →
    RustOutcome RPCError (List (Bytes × AccountDelta))
  | [], updates => .ok updates
  | chunk :: rest, updates =>
    let cb := batch_fetch_account_code_and_balance replay chunk
    match outMapM (fetch_account_storage replay block storage_max_batch_size) chunk with
    | .err e => .err e
    | .panics m => .panics m
    | .ok storage_results =>
      match assembleChunk chain cb.1 cb.2 storage_results chunk 0 updates with
      | .ok updates' => chunksLoop replay chain block rest updates'
      | .err e => .err e
      | .panics m => .panics m

/-- Model of `EVMBatchAccountExtractor::get_accounts_at_block`: deduplicate the
requests into a set, then process chunks of `max_batch_size` sequentially,
assembling an `AccountDelta` with `change = Creation` per request; the
first failing storage fetch fails the whole call. -/
def get_accounts_at_block (replay : RpcReplay) (chain : Chain) (block : Block)
    (requests : List StorageSnapshotRequest) :
    RustOutcome RPCError (List (Bytes × AccountDelta)) :=
  let unique_requests := dedupKeepFirst requests
  chunksLoop replay chain block (chunksOf max_batch_size unique_requests) []

/-- The `eth_getStorageAt` / `debug_storageRangeAt` calls issued while
fetching storage for one request. -/
def issuedStorageCalls (replay : RpcReplay) (block : Block)
    (request : StorageSnapshotRequest) : List RpcCall :=
  match request.slots with
  | some slots =>
    (chunksOf storage_max_batch_size slots).foldl (fun calls slot_batch =>
      calls ++ slot_batch.map (fun slot =>
        RpcCall.getStorageAt request.address slot block.number)) []
  | none =>
    (replay.storagePages request.address).map
      (fun _ => RpcCall.storageRangeAt block.hash request.address)

/-- The full sequence of RPC calls `get_accounts_at_block` issues on a run
whose collection loops all succeed: per chunk, one `eth_getCode` and one
`eth_getBalance` per request, then the storage calls of every request in
the chunk.  (A run aborted by the consumed-future error issues a prefix of
this sequence, likewise a function of the deduplicated request list only.) -/
def issuedCalls (replay : RpcReplay) (block : Block)
    (requests : List StorageSnapshotRequest) : List RpcCall :=
  let unique_requests := dedupKeepFirst requests
  (chunksOf max_batch_size unique_requests).foldl (fun calls chunk =>
    calls ++
      chunk.foldl (fun cs request =>
        cs ++ [RpcCall.getCode request.address block.number,
               RpcCall.getBalance request.address block.number]) [] ++
      chunk.foldl (fun cs request => cs ++ issuedStorageCalls replay block request) [])
    []

end EVMBatchAccountExtractor

/-! ## Lemmas about folds of inserts -/

theorem foldl_seg_flatten {α σ : Type} (step : σ → α → σ) (ls : List (List α)) :
    ∀ init : σ, ls.foldl (fun acc chunk => chunk.foldl step acc) init =
      ls.flatten.foldl step init := by
  induction ls with
  | nil => intro init; rfl
  | cons c t ih =>
    intro init
    simp only [List.foldl_cons, List.flatten_cons, List.foldl_append]
    exact ih (c.foldl step init)

theorem foldl_chunksOf {α σ : Type} (n : Nat) (l : List α) (step : σ → α → σ)
    (init : σ) :
    (chunksOf n l).foldl (fun acc chunk => chunk.foldl step acc) init =
      l.foldl step init := by
  rw [foldl_seg_flatten, chunksOf_flatten]

theorem mapLookup_mem {K V : Type} [DecidableEq K] (m : List (K × V)) (k : K)
    (v : V) (h : mapLookup m k = some v) : (k, v) ∈ m := by
  induction m with
  | nil => exact absurd h (by simp [mapLookup])
  | cons p rest ih =>
    obtain ⟨k', v'⟩ := p
    by_cases hk : k' = k
    · simp only [mapLookup, hk, if_true, Option.some.injEq] at h
      subst hk h
      exact List.mem_cons_self _ _
    · simp only [mapLookup, hk, if_false] at h
      exact List.mem_cons_of_mem _ (ih h)

theorem foldl_insert_all_pred {α K V : Type} [DecidableEq K] (P : V → Prop)
    (key : α → K) (val : α → V) (l : List α) :
    ∀ init : List (K × V), (∀ p ∈ init, P p.2) → (∀ a ∈ l, P (val a)) →
      ∀ p ∈ l.foldl (fun acc a => mapInsert acc (key a) (val a)) init, P p.2 := by
  induction l with
  | nil => intro init hinit _ p hp; exact hinit p hp
  | cons a t ih =>
    intro init hinit hval p hp
    simp only [List.foldl_cons] at hp
    refine ih (mapInsert init (key a) (val a))
      (mapInsert_values_pred P init (key a) (val a) hinit
        (hval a (List.mem_cons_self _ _)))
      (fun x hx => hval x (List.mem_cons_of_mem _ hx)) p hp

theorem mapLookup_foldl_insert_fn {α K V : Type} [DecidableEq K]
    (key : α → K) (val : α → V) (l : List α) (init : List (K × V)) (k : K) :
    mapLookup (l.foldl (fun acc a => mapInsert acc (key a) (val a)) init) k =
      (match lastWith (fun a => key a = k) l with
       | some a => some (val a)
       | none => mapLookup init k) := by
  induction l using List.reverseRecOn generalizing init with
  | nil => simp [lastWith, mapLookup]
  | append_singleton t a ih =>
    rw [List.foldl_append, List.foldl_cons, List.foldl_nil, lastWith_append_one]
    by_cases hk : key a = k
    · rw [if_pos (by simpa using hk)]
      rw [← hk]
      exact mapLookup_insert_self _ _ _
    · rw [if_neg (by simpa using hk)]
      rw [mapLookup_insert_ne _ _ _ _ (fun hkk => hk hkk.symm)]
      exact ih init

/-- Nested lookup: outer key, then inner key, defaulting to the empty inner
map — the read path of `map.entry(k1).or_default().insert(k2, v)` chains. -/
def mapLookup2 {K1 K2 V : Type} [DecidableEq K1] [DecidableEq K2]
    (m : List (K1 × List (K2 × V))) (k1 : K1) (k2 : K2) : Option V :=
  mapLookup ((mapLookup m k1).getD []) k2

theorem mapLookup2_foldl_nested {K1 K2 β : Type} [DecidableEq K1] [DecidableEq K2]
    (key1 : β → K1) (key2 : β → K2) (l : List β)
    (init : List (K1 × List (K2 × β))) (k1 : K1) (k2 : K2) :
    mapLookup2 (l.foldl (fun s x =>
        mapInsert s (key1 x)
          (mapInsert ((mapLookup s (key1 x)).getD []) (key2 x) x)) init) k1 k2 =
      (match lastWith (fun x => key1 x = k1 && key2 x = k2) l with
       | some x => some x
       | none => mapLookup2 init k1 k2) := by
  induction l using List.reverseRecOn generalizing init with
  | nil => simp [lastWith, mapLookup2]
  | append_singleton t x ih =>
    rw [List.foldl_append, List.foldl_cons, List.foldl_nil, lastWith_append_one]
    by_cases h1 : key1 x = k1
    · have houter : mapLookup
          (mapInsert (t.foldl (fun s y =>
            mapInsert s (key1 y)
              (mapInsert ((mapLookup s (key1 y)).getD []) (key2 y) y)) init)
            (key1 x)
            (mapInsert ((mapLookup (t.foldl (fun s y =>
              mapInsert s (key1 y)
                (mapInsert ((mapLookup s (key1 y)).getD []) (key2 y) y)) init)
              (key1 x)).getD []) (key2 x) x)) k1 =
          some (mapInsert ((mapLookup (t.foldl (fun s y =>
            mapInsert s (key1 y)
              (mapInsert ((mapLookup s (key1 y)).getD []) (key2 y) y)) init)
            (key1 x)).getD []) (key2 x) x) := by
        rw [← h1]
        exact mapLookup_insert_self _ _ _
      by_cases h2 : key2 x = k2
      · rw [if_pos (by simp [h1, h2])]
        unfold mapLookup2
        rw [houter]
        simp only [Option.getD_some]
        rw [← h2]
        exact mapLookup_insert_self _ _ _
      · rw [if_neg (by simp [h2])]
        unfold mapLookup2
        rw [houter]
        simp only [Option.getD_some]
        rw [mapLookup_insert_ne _ _ _ _ (fun hkk => h2 hkk.symm), h1]
        exact ih init
    · rw [if_neg (by simp [h1])]
      unfold mapLookup2
      rw [mapLookup_insert_ne _ _ _ _ (fun hkk => h1 hkk.symm)]
      exact ih init

/-! ## Lemmas about decoder outcomes -/

theorem foldDecode_congr {α σ : Type} (step₁ step₂ : σ → α → DecOut σ)
    (h : ∀ s a, step₁ s a = step₂ s a) (l : List α) (init : σ) :
    foldDecode step₁ init l = foldDecode step₂ init l := by
  induction l generalizing init with
  | nil => rfl
  | cons a t ih =>
    simp only [foldDecode, h init a]
    cases step₂ init a with
    | ok s => exact ih s
    | err e => rfl
    | panics m => rfl

/-- A fallible fold whose step decodes the element and then applies a pure
update is the elementwise decode followed by a pure fold. -/
theorem foldDecode_map_eq {α β σ : Type} (dec : α → DecOut β) (upd : σ → β → σ)
    (l : List α) (init : σ) :
    foldDecode (fun s a => (dec a).map (upd s)) init l =
      (outMapM dec l).map (fun xs => xs.foldl upd init) := by
  induction l generalizing init with
  | nil => rfl
  | cons a t ih =>
    simp only [foldDecode, outMapM, RustOutcome.map] at ih ⊢
    cases dec a with
    | ok b =>
      dsimp only
      rw [ih (upd init b)]
      cases outMapM dec t <;> rfl
    | err e => rfl
    | panics m => rfl

/-- Failure shape of decoder outcomes: never a panic, never `Empty`. -/
def onlyDecodeFailures {α : Type} : DecOut α → Prop
  | .ok _ => True
  | .err (.DecodeError _) => True
  | _ => False

theorem onlyDecodeFailures_map {α β : Type} (f : α → β) (o : DecOut α)
    (h : onlyDecodeFailures o) : onlyDecodeFailures (o.map f) := by
  cases o with
  | ok a => trivial
  | err e => cases e with
    | Empty => exact absurd h (by simp [onlyDecodeFailures])
    | DecodeError s => trivial
  | panics m => exact absurd h (by simp [onlyDecodeFailures])

theorem onlyDecodeFailures_bind {α β : Type} (o : DecOut α) (f : α → DecOut β)
    (ho : onlyDecodeFailures o) (hf : ∀ a, onlyDecodeFailures (f a)) :
    onlyDecodeFailures (o.bind f) := by
  cases o with
  | ok a => exact hf a
  | err e => cases e with
    | Empty => exact absurd ho (by simp [onlyDecodeFailures])
    | DecodeError s => trivial
  | panics m => exact absurd ho (by simp [onlyDecodeFailures])

theorem onlyDecodeFailures_outMapM {α β : Type} (f : α → DecOut β) (l : List α)
    (h : ∀ a ∈ l, onlyDecodeFailures (f a)) : onlyDecodeFailures (outMapM f l) := by
  induction l with
  | nil => trivial
  | cons a t ih =>
    simp only [outMapM]
    cases hfa : f a with
    | ok b =>
      exact onlyDecodeFailures_map _ _ (ih (fun x hx => h x (List.mem_cons_of_mem _ hx)))
    | err e =>
      have := h a (List.mem_cons_self _ _)
      rw [hfa] at this
      cases e with
      | Empty => exact absurd this (by simp [onlyDecodeFailures])
      | DecodeError s => trivial
    | panics m =>
      have := h a (List.mem_cons_self _ _)
      rw [hfa] at this
      exact absurd this (by simp [onlyDecodeFailures])

theorem onlyDecodeFailures_foldDecode {α σ : Type} (step : σ → α → DecOut σ)
    (l : List α) (h : ∀ s a, onlyDecodeFailures (step s a)) :
    ∀ init, onlyDecodeFailures (foldDecode step init l) := by
  induction l with
  | nil => intro init; trivial
  | cons a t ih =>
    intro init
    simp only [foldDecode]
    cases hs : step init a with
    | ok s => exact ih s
    | err e =>
      have := h init a
      rw [hs] at this
      exact this
    | panics m =>
      have := h init a
      rw [hs] at this
      exact absurd this (by simp [onlyDecodeFailures])

theorem decodeError_of_not_ok {α : Type} (o : DecOut α)
    (h : onlyDecodeFailures o) (hno : ∀ b, o ≠ .ok b) :
    ∃ s, o = .err (.DecodeError s) := by
  cases o with
  | ok a => exact absurd rfl (hno a)
  | err e => cases e with
    | Empty => exact absurd h (by simp [onlyDecodeFailures])
    | DecodeError s => exact ⟨s, rfl⟩
  | panics m => exact absurd h (by simp [onlyDecodeFailures])

theorem outMapM_not_ok {α β : Type} (f : α → DecOut β) (l : List α) (a : α)
    (ha : a ∈ l) (hfail : ∀ b, f a ≠ .ok b) : ∀ bs, outMapM f l ≠ .ok bs := by
  intro bs h
  rcases outMapM_ok_of_mem f l bs h a ha with ⟨b, hb⟩
  exact hfail b hb

theorem bind_err {α β : Type} (o : DecOut α) (f : α → DecOut β)
    (e : ExtractionError) (h : o = .err e) : o.bind f = .err e := by
  rw [h]; rfl

theorem map_ne_ok_of_ne_ok {α β : Type} (f : α → β) (o : DecOut α)
    (h : ∀ a, o ≠ .ok a) : ∀ b, o.map f ≠ .ok b := by
  intro b hb
  cases o with
  | ok a => exact h a rfl
  | err e => exact absurd hb (by simp [RustOutcome.map])
  | panics m => exact absurd hb (by simp [RustOutcome.map])

/-! ### Failure shapes of the individual decoders -/

theorem changeType_failures (c : pb.ChangeType) :
    onlyDecodeFailures (ChangeType.try_from_message c) := by
  cases c <;> trivial

theorem accountDelta_failures (msg : pb.ContractChange) (chain : Chain) :
    onlyDecodeFailures (AccountDelta.try_from_message msg chain) :=
  onlyDecodeFailures_map _ _ (changeType_failures msg.change)

theorem block_failures (msg : pb.Block) (chain : Chain) :
    onlyDecodeFailures (Block.try_from_message msg chain) := by
  unfold Block.try_from_message
  cases fromTimestampOpt (u64AsI64 msg.ts) with
  | some ts => trivial
  | none => trivial

theorem componentBalance_failures (msg : pb.BalanceChange) (tx : Transaction) :
    onlyDecodeFailures (ComponentBalance.try_from_message msg tx) := by
  unfold ComponentBalance.try_from_message
  cases stringFromUtf8 msg.component_id with
  | some s => trivial
  | none => trivial

theorem protocolComponent_failures (msg : pb.ProtocolComponent) (chain : Chain)
    (ps : String) (pts : List String) (tx_hash : Bytes) (ts : NaiveDateTime) :
    onlyDecodeFailures (ProtocolComponent.try_from_message msg chain ps pts tx_hash ts) := by
  unfold ProtocolComponent.try_from_message
  cases msg.protocol_type with
  | none => trivial
  | some pt =>
    by_cases h : pt.name ∉ pts
    · simp only [h, if_true]; trivial
    · simp only [h, if_false]
      exact onlyDecodeFailures_map _ _ (changeType_failures msg.change)

theorem attrLoop_failures (attrs : List pb.Attribute) :
    ∀ updates deletions,
      onlyDecodeFailures (ProtocolComponentStateDelta.attrLoop attrs updates deletions) := by
  induction attrs with
  | nil => intro u d; trivial
  | cons a t ih =>
    intro u d
    simp only [ProtocolComponentStateDelta.attrLoop]
    have hc := changeType_failures a.change
    cases hcc : ChangeType.try_from_message a.change with
    | ok c => cases c <;> exact ih _ _
    | err e =>
      rw [hcc] at hc
      cases e with
      | Empty => exact absurd hc (by simp [onlyDecodeFailures])
      | DecodeError s => trivial
    | panics m =>
      rw [hcc] at hc
      exact absurd hc (by simp [onlyDecodeFailures])

theorem stateDelta_failures (msg : pb.EntityChanges) :
    onlyDecodeFailures (ProtocolComponentStateDelta.try_from_message msg) :=
  onlyDecodeFailures_map _ _ (attrLoop_failures msg.attributes [] [])

theorem tracingParams_failures (msg : pb.EntryPointParams) :
    onlyDecodeFailures (TracingParams.try_from_message msg) := by
  unfold TracingParams.try_from_message
  cases msg.trace_data with
  | none => trivial
  | some td => cases td; trivial

theorem accountBalance_failures (msg : pb.AccountBalanceChange) (addr : Bytes)
    (tx : Transaction) :
    onlyDecodeFailures (AccountBalance.try_from_message msg addr tx) := by
  unfold AccountBalance.try_from_message
  trivial

theorem entryPoint_failures (msg : pb.EntryPoint) :
    onlyDecodeFailures (EntryPoint.try_from_message msg) := by
  unfold EntryPoint.try_from_message
  trivial

/-! ### Inversion of successful outcomes -/

theorem bind_ok_inversion {α β : Type} (o : DecOut α) (f : α → DecOut β) (r : β)
    (h : o.bind f = .ok r) : ∃ a, o = .ok a ∧ f a = .ok r := by
  cases o with
  | ok a => exact ⟨a, rfl, h⟩
  | err e => exact absurd h (by simp [RustOutcome.bind])
  | panics m => exact absurd h (by simp [RustOutcome.bind])

theorem map_ok_inversion {α β : Type} (o : DecOut α) (f : α → β) (r : β)
    (h : o.map f = .ok r) : ∃ a, o = .ok a ∧ f a = r := by
  cases o with
  | ok a =>
    refine ⟨a, rfl, ?_⟩
    have : RustOutcome.ok (ε := ExtractionError) (f a) = .ok r := h
    exact (RustOutcome.ok.injEq _ _).mp this

  | err e => exact absurd h (by simp [RustOutcome.map])
  | panics m => exact absurd h (by simp [RustOutcome.map])

/-! ### Failure shapes of the named loop bodies -/

theorem componentStepById_failures (chain : Chain) (ps : String)
    (pts : List String) (tx_hash : Bytes) (ts : NaiveDateTime)
    (s : List (String × ProtocolComponent)) (change : pb.ProtocolComponent) :
    onlyDecodeFailures (componentStepById chain ps pts tx_hash ts s change) := by
  unfold componentStepById
  exact onlyDecodeFailures_map _ _ (protocolComponent_failures change chain ps pts tx_hash ts)

theorem componentStepByMsgId_failures (chain : Chain) (ps : String)
    (pts : List String) (tx_hash : Bytes) (ts : NaiveDateTime)
    (s : List (String × ProtocolComponent)) (change : pb.ProtocolComponent) :
    onlyDecodeFailures (componentStepByMsgId chain ps pts tx_hash ts s change) := by
  unfold componentStepByMsgId
  exact onlyDecodeFailures_map _ _ (protocolComponent_failures change chain ps pts tx_hash ts)

theorem accountDeltaStep_failures (chain : Chain) (s : List (Bytes × AccountDelta))
    (contract_change : pb.ContractChange) :
    onlyDecodeFailures (accountDeltaStep chain s contract_change) := by
  unfold accountDeltaStep
  exact onlyDecodeFailures_map _ _ (accountDelta_failures contract_change chain)

theorem stateUpdateStep_failures (s : List (String × ProtocolComponentStateDelta))
    (state_msg : pb.EntityChanges) :
    onlyDecodeFailures (stateUpdateStep s state_msg) := by
  unfold stateUpdateStep
  exact onlyDecodeFailures_map _ _ (stateDelta_failures state_msg)

theorem componentBalanceStep_failures (tx : Transaction)
    (s : List (String × List (Bytes × ComponentBalance)))
    (balance_change : pb.BalanceChange) :
    onlyDecodeFailures (componentBalanceStep tx s balance_change) := by
  unfold componentBalanceStep
  exact onlyDecodeFailures_map _ _ (componentBalance_failures balance_change tx)

theorem componentBalanceUtf8Step_failures (tx : Transaction)
    (s : List (String × List (Bytes × ComponentBalance)))
    (balance_change : pb.BalanceChange) :
    onlyDecodeFailures (componentBalanceUtf8Step tx s balance_change) := by
  unfold componentBalanceUtf8Step
  cases hu : stringFromUtf8 balance_change.component_id with
  | none => trivial
  | some cid =>
    exact onlyDecodeFailures_map _ _ (componentBalance_failures balance_change tx)

theorem accountBalanceInnerStep_failures (tx : Transaction) (account_addr : Bytes)
    (s : List (Bytes × List (Bytes × AccountBalance)))
    (balance_change : pb.AccountBalanceChange) :
    onlyDecodeFailures (accountBalanceInnerStep tx account_addr s balance_change) := by
  unfold accountBalanceInnerStep
  exact onlyDecodeFailures_map _ _ (accountBalance_failures balance_change account_addr tx)

theorem accountBalanceStep_failures (tx : Transaction)
    (s : List (Bytes × List (Bytes × AccountBalance)))
    (contract_change : pb.ContractChange) :
    onlyDecodeFailures (accountBalanceStep tx s contract_change) := by
  unfold accountBalanceStep
  exact onlyDecodeFailures_foldDecode _ _
    (fun s' b => accountBalanceInnerStep_failures tx contract_change.address s' b) s

theorem entrypointStep_failures (s : List (String × List EntryPoint))
    (msg_entrypoint : pb.EntryPoint) :
    onlyDecodeFailures (entrypointStep s msg_entrypoint) := by
  unfold entrypointStep
  exact onlyDecodeFailures_map _ _ (entryPoint_failures msg_entrypoint)

theorem entrypointParamsStep_failures
    (s : List (String × List (TracingParams × Option String)))
    (msg_entrypoint_params : pb.EntryPointParams) :
    onlyDecodeFailures (entrypointParamsStep s msg_entrypoint_params) := by
  unfold entrypointParamsStep
  exact onlyDecodeFailures_map _ _ (tracingParams_failures msg_entrypoint_params)

/-! ### Composite failure shapes -/

theorem protocolChangesWithTx_failures (msg : pb.TransactionEntityChanges)
    (block : Block) (ps : String) (pts : List String) (txMsg : pb.Transaction)
    (htx : msg.tx = some txMsg) :
    onlyDecodeFailures (ProtocolChangesWithTx.try_from_message msg block ps pts) := by
  unfold ProtocolChangesWithTx.try_from_message
  rw [htx]
  refine onlyDecodeFailures_bind _ _ trivial (fun tx => ?_)
  refine onlyDecodeFailures_bind _ _
    (onlyDecodeFailures_foldDecode _ _
      (componentStepByMsgId_failures block.chain ps pts tx.hash block.ts) []) (fun comps => ?_)
  refine onlyDecodeFailures_bind _ _
    (onlyDecodeFailures_foldDecode _ _ stateUpdateStep_failures []) (fun states => ?_)
  exact onlyDecodeFailures_map _ _
    (onlyDecodeFailures_foldDecode _ _ (componentBalanceStep_failures tx) [])

theorem txWithChanges_failures (msg : pb.TransactionChanges) (block : Block)
    (ps : String) (pts : List String) (txMsg : pb.Transaction)
    (htx : msg.tx = some txMsg) :
    onlyDecodeFailures (TxWithChanges.try_from_message msg block ps pts) := by
  unfold TxWithChanges.try_from_message
  rw [htx]
  refine onlyDecodeFailures_bind _ _ trivial (fun tx => ?_)
  refine onlyDecodeFailures_bind _ _
    (onlyDecodeFailures_foldDecode _ _
      (componentStepById_failures block.chain ps pts tx.hash block.ts) []) (fun comps => ?_)
  refine onlyDecodeFailures_bind _ _
    (onlyDecodeFailures_foldDecode _ _ (accountDeltaStep_failures block.chain) [])
    (fun accounts => ?_)
  refine onlyDecodeFailures_bind _ _
    (onlyDecodeFailures_foldDecode _ _ stateUpdateStep_failures []) (fun states => ?_)
  refine onlyDecodeFailures_bind _ _
    (onlyDecodeFailures_foldDecode _ _ (componentBalanceUtf8Step_failures tx) [])
    (fun balances => ?_)
  refine onlyDecodeFailures_bind _ _
    (onlyDecodeFailures_foldDecode _ _ (accountBalanceStep_failures tx) [])
    (fun acct_bals => ?_)
  refine onlyDecodeFailures_bind _ _
    (onlyDecodeFailures_foldDecode _ _ entrypointStep_failures []) (fun eps => ?_)
  exact onlyDecodeFailures_map _ _
    (onlyDecodeFailures_foldDecode _ _ entrypointParamsStep_failures [])

theorem blockContractChangeStep_failures (chain : Chain) (ps : String)
    (pts : List String) (block : Block) (s : List AccountChangesWithTx)
    (change : pb.TransactionContractChanges) :
    onlyDecodeFailures (blockContractChangeStep chain ps pts block s change) := by
  unfold blockContractChangeStep
  cases change.tx with
  | none => trivial
  | some txMsg =>
    refine onlyDecodeFailures_bind _ _ trivial (fun tx => ?_)
    refine onlyDecodeFailures_bind _ _
      (onlyDecodeFailures_foldDecode _ _ (accountDeltaStep_failures chain) [])
      (fun account_updates => ?_)
    refine onlyDecodeFailures_bind _ _
      (onlyDecodeFailures_foldDecode _ _
        (componentStepById_failures chain ps pts tx.hash block.ts) [])
      (fun protocol_components => ?_)
    refine onlyDecodeFailures_bind _ _
      (onlyDecodeFailures_foldDecode _ _ (componentBalanceUtf8Step_failures tx) [])
      (fun balances_changes => ?_)
    exact onlyDecodeFailures_map _ _
      (onlyDecodeFailures_foldDecode _ _ (accountBalanceStep_failures tx) [])

/-- Skipping semantics: a fold whose step leaves the accumulator unchanged
on elements failing `pred` equals the fold over the filtered list. -/
theorem foldDecode_filter_skip {α σ : Type} (step : σ → α → DecOut σ)
    (pred : α → Bool) (hskip : ∀ s a, pred a = false → step s a = .ok s)
    (l : List α) : ∀ init,
      foldDecode step init l = foldDecode step init (l.filter pred) := by
  induction l with
  | nil => intro init; rfl
  | cons a t ih =>
    intro init
    by_cases hp : pred a
    · rw [List.filter_cons_of_pos hp]
      simp only [foldDecode]
      cases step init a with
      | ok s => exact ih s
      | err e => rfl
      | panics m => rfl
    · rw [List.filter_cons_of_neg (by simpa using hp)]
      simp only [foldDecode, hskip init a (by simpa using hp)]
      exact ih init

/-- A component whose protocol-type name is not registered never decodes. -/
theorem protocolComponent_unknown_name (msg : pb.ProtocolComponent) (chain : Chain)
    (ps : String) (pts : List String) (tx_hash : Bytes) (ts : NaiveDateTime)
    (pt : pb.ProtocolType) (hpt : msg.protocol_type = some pt)
    (hname : pt.name ∉ pts) :
    ProtocolComponent.try_from_message msg chain ps pts tx_hash ts =
      .err (.DecodeError s!"Unknown protocol type name: {pt.name}") := by
  unfold ProtocolComponent.try_from_message
  rw [hpt]
  simp only [hname, not_false_eq_true, if_true]

theorem mem_setInsert {K : Type} [DecidableEq K] (s : List K) (k x : K)
    (h : x ∈ setInsert s k) : x ∈ s ∨ x = k := by
  unfold setInsert at h
  by_cases hk : k ∈ s
  · rw [if_pos hk] at h; exact Or.inl h
  · rw [if_neg hk] at h
    rcases List.mem_append.mp h with h' | h'
    · exact Or.inl h'
    · exact Or.inr (List.mem_singleton.mp h')

theorem mapLookup_insert_isSome {K V : Type} [DecidableEq K]
    (m : List (K × V)) (k k' : K) (v : V)
    (h : (mapLookup (mapInsert m k v) k').isSome) :
    k' = k ∨ (mapLookup m k').isSome := by
  by_cases hk : k' = k
  · exact Or.inl hk
  · rw [mapLookup_insert_ne m k k' v hk] at h
    exact Or.inr h

/-- The attribute loop only adds update keys for attributes whose change is
`Update`/`Creation` and deleted names for attributes whose change is
`Deletion`. -/
theorem attrLoop_origin (attrs : List pb.Attribute) :
    ∀ (updates : List (String × Bytes)) (deletions : List String)
      (u : List (String × Bytes)) (del : List String),
      ProtocolComponentStateDelta.attrLoop attrs updates deletions = .ok (u, del) →
      (∀ name, (mapLookup u name).isSome → (mapLookup updates name).isSome ∨
        ∃ a ∈ attrs, a.name = name ∧
          (a.change = pb.ChangeType.Update ∨ a.change = pb.ChangeType.Creation)) ∧
      (∀ name, name ∈ del → name ∈ deletions ∨
        ∃ a ∈ attrs, a.name = name ∧ a.change = pb.ChangeType.Deletion) := by
  induction attrs with
  | nil =>
    intro updates deletions u del h
    simp only [ProtocolComponentStateDelta.attrLoop, RustOutcome.ok.injEq,
      Prod.mk.injEq] at h
    obtain ⟨rfl, rfl⟩ := h
    constructor
    · intro name hn
      exact Or.inl hn
    · intro name hn
      exact Or.inl hn
  | cons a t ih =>
    intro updates deletions u del h
    simp only [ProtocolComponentStateDelta.attrLoop] at h
    cases hc : a.change with
    | Unspecified =>
      rw [hc] at h
      exact absurd h (by simp [ChangeType.try_from_message])
    | Creation =>
      rw [hc] at h
      have h' : ProtocolComponentStateDelta.attrLoop t
          (mapInsert updates a.name a.value) deletions = .ok (u, del) := h
      obtain ⟨hupd, hdel⟩ := ih _ _ _ _ h'
      constructor
      · intro name hn
        rcases hupd name hn with h1 | ⟨a', ha', hn', hch⟩
        · rcases mapLookup_insert_isSome _ _ _ _ h1 with rfl | h2
          · exact Or.inr ⟨a, List.mem_cons_self _ _, rfl, Or.inr hc⟩
          · exact Or.inl h2
        · exact Or.inr ⟨a', List.mem_cons_of_mem _ ha', hn', hch⟩
      · intro name hn
        rcases hdel name hn with h1 | ⟨a', ha', hn', hch⟩
        · exact Or.inl h1
        · exact Or.inr ⟨a', List.mem_cons_of_mem _ ha', hn', hch⟩
    | Update =>
      rw [hc] at h
      have h' : ProtocolComponentStateDelta.attrLoop t
          (mapInsert updates a.name a.value) deletions = .ok (u, del) := h
      obtain ⟨hupd, hdel⟩ := ih _ _ _ _ h'
      constructor
      · intro name hn
        rcases hupd name hn with h1 | ⟨a', ha', hn', hch⟩
        · rcases mapLookup_insert_isSome _ _ _ _ h1 with rfl | h2
          · exact Or.inr ⟨a, List.mem_cons_self _ _, rfl, Or.inl hc⟩
          · exact Or.inl h2
        · exact Or.inr ⟨a', List.mem_cons_of_mem _ ha', hn', hch⟩
      · intro name hn
        rcases hdel name hn with h1 | ⟨a', ha', hn', hch⟩
        · exact Or.inl h1
        · exact Or.inr ⟨a', List.mem_cons_of_mem _ ha', hn', hch⟩
    | Deletion =>
      rw [hc] at h
      have h' : ProtocolComponentStateDelta.attrLoop t
          updates (setInsert deletions a.name) = .ok (u, del) := h
      obtain ⟨hupd, hdel⟩ := ih _ _ _ _ h'
      constructor
      · intro name hn
        rcases hupd name hn with h1 | ⟨a', ha', hn', hch⟩
        · exact Or.inl h1
        · exact Or.inr ⟨a', List.mem_cons_of_mem _ ha', hn', hch⟩
      · intro name hn
        rcases hdel name hn with h1 | ⟨a', ha', hn', hch⟩
        · rcases mem_setInsert _ _ _ h1 with h2 | rfl
          · exact Or.inl h2
          · exact Or.inr ⟨a, List.mem_cons_self _ _, rfl, hc⟩
        · exact Or.inr ⟨a', List.mem_cons_of_mem _ ha', hn', hch⟩

/-! ## Claim C2 — updated/deleted attribute disjointness -/

/-- An `EntityChanges` message carrying a Deletion and then an Update for
the same attribute name. -/
def c2ExMsg : pb.EntityChanges :=
  { component_id := "poolA"
    attributes := [ { name := "x", value := [1], change := .Deletion },
                    { name := "x", value := [3], change := .Update } ] }

/-- C2, counterexample: the decoder accepts `c2ExMsg`, yet the attribute
`"x"` (Deletion followed by Update) ends up both in `updated_attributes`
(with value `[3]`) and in `deleted_attributes` — the decoded delta is not
disjoint, contrary to the claim. -/
theorem c2_counterexample :
    (ProtocolComponentStateDelta.try_from_message c2ExMsg).map
      (fun d => (mapLookup d.updated_attributes "x",
                 decide ("x" ∈ d.deleted_attributes))) =
      .ok (some [3], true) := by decide

/-- C2, amended: attributes with change `Creation`/`Update` go to
`updated_attributes` and attributes with change `Deletion` go to
`deleted_attributes`; an attribute name occurring with both kinds of change
ends up in both maps, so disjointness only holds for messages in which no
name carries both a `Deletion` and a `Creation`/`Update` change. -/
theorem c2_disjoint_without_conflicts (msg : pb.EntityChanges)
    (d : ProtocolComponentStateDelta)
    (h : ProtocolComponentStateDelta.try_from_message msg = .ok d)
    (hnc : ∀ a ∈ msg.attributes, ∀ a' ∈ msg.attributes, a.name = a'.name →
      ¬(a.change = pb.ChangeType.Deletion ∧
        (a'.change = pb.ChangeType.Update ∨ a'.change = pb.ChangeType.Creation))) :
    ∀ name ∈ d.deleted_attributes, mapLookup d.updated_attributes name = none := by
  intro name hname
  unfold ProtocolComponentStateDelta.try_from_message at h
  obtain ⟨⟨u, del⟩, hloop, hd⟩ := map_ok_inversion _ _ _ h
  obtain ⟨hupd, hdel⟩ := attrLoop_origin msg.attributes [] [] u del hloop
  have hdfields : d.updated_attributes = u ∧ d.deleted_attributes = del := by
    rw [← hd]; exact ⟨rfl, rfl⟩
  rw [hdfields.2] at hname
  rcases hdel name hname with h1 | ⟨a, ha, hn, hch⟩
  · exact absurd h1 (List.not_mem_nil name)
  · rw [hdfields.1]
    cases hl : mapLookup u name with
    | none => rfl
    | some v =>
      exfalso
      have hs : (mapLookup u name).isSome := by rw [hl]; rfl
      rcases hupd name hs with h2 | ⟨a', ha', hn', hch'⟩
      · exact absurd h2 (by simp [mapLookup])
      · exact hnc a ha a' ha' (hn.trans hn'.symm) ⟨hch, hch'⟩

/-- The delta decoded from the witness message below. -/
def c2WitnessDelta : ProtocolComponentStateDelta :=
  { component_id := "poolB", updated_attributes := [("a", [1])],
    deleted_attributes := ["b"] }

/-- C2, witness: a message whose attribute names each carry only one kind
of change decodes to a delta with disjoint maps; the deleted name "b" is
absent from the update map. -/
theorem c2_witness :
    mapLookup c2WitnessDelta.updated_attributes "b" = none :=
  c2_disjoint_without_conflicts
    { component_id := "poolB"
      attributes := [ { name := "a", value := [1], change := .Update },
                      { name := "b", value := [], change := .Deletion } ] }
    c2WitnessDelta (by decide) (by decide) "b" (by decide)

/-! ## Claim C6 — contract-state version resolution -/

/-- C6: version resolution for contract-state queries follows the exact
precedence of `TryFrom<&dto::VersionParam>`: a present `block.hash` wins
regardless of every other field (any timestamp is discarded); otherwise
present `chain` and `number` resolve to a number identifier; a present but
under-specified block fails `Parse("Insufficient block information")`; no
block with a timestamp resolves to the timestamp; neither fails
`Parse("Missing timestamp or block identifier")`. -/
theorem c6_version_resolution :
    (∀ (ts : Option NaiveDateTime) (bph : Option Bytes) (bn : Option Nat)
        (bc : Option dto.Chain) (h : Bytes),
      BlockOrTimestamp.try_from ⟨ts, some ⟨some h, bph, bn, bc⟩⟩ =
        .ok (.Block (.Hash h))) ∧
    (∀ (ts : Option NaiveDateTime) (bph : Option Bytes) (n : Nat) (c : dto.Chain),
      BlockOrTimestamp.try_from ⟨ts, some ⟨none, bph, some n, some c⟩⟩ =
        .ok (.Block (.Number (Chain.fromDto c, n)))) ∧
    (∀ (ts : Option NaiveDateTime) (bph : Option Bytes) (bn : Option Nat)
        (bc : Option dto.Chain), bc = none ∨ bn = none →
      BlockOrTimestamp.try_from ⟨ts, some ⟨none, bph, bn, bc⟩⟩ =
        .error (.Parse "Insufficient block information")) ∧
    (∀ t : NaiveDateTime,
      BlockOrTimestamp.try_from ⟨some t, none⟩ = .ok (.Timestamp t)) ∧
    BlockOrTimestamp.try_from ⟨none, none⟩ =
      .error (.Parse "Missing timestamp or block identifier") := by
  refine ⟨?_, ?_, ?_, ?_, ?_⟩
  · intro ts bph bn bc h
    cases ts <;> cases bn <;> cases bc <;> rfl
  · intro ts bph n c
    cases ts <;> rfl
  · intro ts bph bn bc hunder
    rcases hunder with rfl | rfl
    · cases bn <;> cases ts <;> rfl
    · cases bc <;> cases ts <;> rfl
  · intro t; rfl
  · rfl

/-- C6, witness: a body with both `block.hash` and a timestamp resolves to
the hash identifier (S6), and a block with neither hash nor chain+number
fails with the insufficiency parse error. -/
theorem c6_witness :
    BlockOrTimestamp.try_from
        ⟨some 420, some ⟨some [0x24, 0x10], none, some 213, some .Ethereum⟩⟩ =
      .ok (.Block (.Hash [0x24, 0x10])) ∧
    BlockOrTimestamp.try_from ⟨some 420, some ⟨none, none, some 213, none⟩⟩ =
      .error (.Parse "Insufficient block information") :=
  ⟨c6_version_resolution.1 (some 420) none (some 213) (some .Ethereum) [0x24, 0x10],
   c6_version_resolution.2.2.1 (some 420) none (some 213) none (Or.inl rfl)⟩

/-! ## Lemmas about the batched storage fetch -/

theorem list_set_append_len {α : Type} (P : List α) (a b : α) (l : List α) :
    (P ++ a :: l).set P.length b = P ++ b :: l := by
  induction P with
  | nil => rfl
  | cons p P' ih =>
    show p :: (P' ++ a :: l).set P'.length b = p :: (P' ++ b :: l)
    rw [ih]

theorem list_getElem_append_cons_len {α : Type} (P : List α) (a : α) (l : List α) :
    (P ++ a :: l)[P.length]? = some a := by
  induction P with
  | nil => simp
  | cons p P' ih =>
    simp only [List.cons_append, List.length_cons, List.getElem?_cons_succ]
    exact ih

/-- Every chunk `chunksOf` produces is nonempty. -/
theorem chunksGo_mem_ne_nil {α : Type} (n : Nat) :
    ∀ (fuel : Nat) (l : List α), ∀ c ∈ chunksGo n fuel l, c ≠ [] := by
  intro fuel
  induction fuel with
  | zero =>
    intro l c hc
    cases l with
    | nil => exact absurd hc (List.not_mem_nil c)
    | cons a t =>
      simp only [chunksGo, List.mem_singleton] at hc
      rw [hc]
      exact List.cons_ne_nil a t
  | succ fuel ih =>
    intro l c hc
    cases l with
    | nil => exact absurd hc (List.not_mem_nil c)
    | cons a t =>
      by_cases hn : n = 0
      · simp only [chunksGo, hn, if_true] at hc
        rw [List.mem_singleton.mp hc]
        exact List.cons_ne_nil a t
      · simp only [chunksGo, hn, if_false] at hc
        rcases List.mem_cons.mp hc with h | h
        · rw [h]
          simp [List.take_eq_nil_iff, hn]
        · exact ih (List.drop n (a :: t)) c h

theorem chunksOf_mem_ne_nil {α : Type} (n : Nat) (l : List α) :
    ∀ c ∈ chunksOf n l, c ≠ [] :=
  chunksGo_mem_ne_nil n l.length l

/-- One step of the collection loop on a fresh (unconsumed) future. -/
theorem collectBatch_cons (replay : RpcReplay) (address : Bytes)
    (reqs : List (Bytes × Bool)) (idx : Nat) (slot : Bytes) (rest : List Bytes)
    (result : List (Bytes × Option Bytes)) (fslot : Bytes)
    (hidx : reqs[idx]? = some (fslot, false)) :
    EVMBatchAccountExtractor.collectBatch replay address reqs idx (slot :: rest)
        result =
      EVMBatchAccountExtractor.collectBatch replay address
        (reqs.set idx (fslot, true)) (idx + 1) rest
        (mapInsert result slot
          (if replay.storageAt address fslot = List.replicate 32 0
           then none else some (replay.storageAt address fslot))) := by
  conv_lhs => unfold EVMBatchAccountExtractor.collectBatch
  rw [hidx]
  rfl

/-- One step of the collection loop on an already-consumed future: the call
fails with the request error of the collect `map_err`. -/
theorem collectBatch_consumed (replay : RpcReplay) (address : Bytes)
    (reqs : List (Bytes × Bool)) (slot : Bytes) (rest : List Bytes)
    (result : List (Bytes × Option Bytes)) (fslot : Bytes)
    (h0 : reqs[0]? = some (fslot, true)) :
    EVMBatchAccountExtractor.collectBatch replay address reqs 0 (slot :: rest)
        result =
      .err (.RequestError "Failed to collect storage request data") := by
  conv_lhs => unfold EVMBatchAccountExtractor.collectBatch
  rw [h0]
  rfl

/-- Collecting a batch whose futures are fresh — appended after an
already-consumed prefix `P`, with the index starting at `P.length` —
succeeds, records every slot by the 32-zero-byte convention, and leaves
every future of the vec consumed. -/
theorem collectBatch_spec (replay : RpcReplay) (address : Bytes) :
    ∀ (batch : List Bytes) (P : List (Bytes × Bool))
      (result : List (Bytes × Option Bytes)),
    (∀ p ∈ P, p.2 = true) →
    ∃ Q : List (Bytes × Bool),
      EVMBatchAccountExtractor.collectBatch replay address
          (P ++ batch.map (fun slot => (slot, false))) P.length batch result =
        .ok (Q, batch.foldl (fun res slot =>
          mapInsert res slot
            (if replay.storageAt address slot = List.replicate 32 0
             then none else some (replay.storageAt address slot))) result) ∧
      (∀ p ∈ Q, p.2 = true) ∧ Q.length = P.length + batch.length := by
  intro batch
  induction batch with
  | nil =>
    intro P result hP
    refine ⟨P, ?_, hP, by simp⟩
    simp only [List.map_nil, List.append_nil]
    rfl
  | cons slot rest ih =>
    intro P result hP
    simp only [List.map_cons]
    have hidx : (P ++ (slot, false) :: rest.map (fun s => (s, false)))[P.length]? =
        some (slot, false) := list_getElem_append_cons_len P (slot, false) _
    have hset := list_set_append_len P (slot, false) (slot, true)
      (rest.map (fun s => (s, false)))
    obtain ⟨Q, hcol, hQ, hlen⟩ := ih (P ++ [(slot, true)])
      (mapInsert result slot
        (if replay.storageAt address slot = List.replicate 32 0
         then none else some (replay.storageAt address slot)))
      (fun p hp => by
        rcases List.mem_append.mp hp with h | h
        · exact hP p h
        · rw [List.mem_singleton.mp h])
    simp only [List.append_assoc, List.singleton_append, List.length_append,
      List.length_singleton] at hcol hlen
    refine ⟨Q, ?_, hQ, by simp only [List.length_cons]; omega⟩
    rw [collectBatch_cons replay address _ P.length slot rest result slot hidx, hset]
    simp only [List.foldl_cons]
    exact hcol

/-- Unfolding lemma for the chunk loop. -/
theorem fetchChunksLoop_cons (replay : RpcReplay) (address : Bytes)
    (slot_batch : List Bytes) (rest : List (List Bytes))
    (storage_requests : List (Bytes × Bool))
    (result : List (Bytes × Option Bytes)) :
    EVMBatchAccountExtractor.fetchChunksLoop replay address (slot_batch :: rest)
        storage_requests result =
      match EVMBatchAccountExtractor.collectBatch replay address
          (storage_requests ++ slot_batch.map (fun slot => (slot, false)))
          0 slot_batch result with
      | .ok (reqs, result') =>
          EVMBatchAccountExtractor.fetchChunksLoop replay address rest reqs result'
      | .err e => .err e
      | .panics m => .panics m := rfl

/-- A slot list fitting in a single chunk is fetched correctly: all futures
of the vec are fresh and the per-batch index pairs every slot with its own
response. -/
theorem fetchChunksLoop_single (replay : RpcReplay) (address : Bytes)
    (batch : List Bytes) :
    EVMBatchAccountExtractor.fetchChunksLoop replay address [batch] [] [] =
      .ok (batch.foldl (fun res slot =>
        mapInsert res slot
          (if replay.storageAt address slot = List.replicate 32 0
           then none else some (replay.storageAt address slot))) []) := by
  obtain ⟨Q, hcol, -, -⟩ := collectBatch_spec replay address batch [] []
    (fun p hp => absurd hp (List.not_mem_nil p))
  simp only [List.length_nil] at hcol
  rw [fetchChunksLoop_cons, hcol]
  rfl

/-- A slot list spanning at least two chunks always fails: the second
chunk's collection loop indexes the first chunk's consumed futures. -/
theorem fetchChunksLoop_two_err (replay : RpcReplay) (address : Bytes)
    (c1 c2 : List Bytes) (rest : List (List Bytes))
    (h1 : c1 ≠ []) (h2 : c2 ≠ []) :
    EVMBatchAccountExtractor.fetchChunksLoop replay address (c1 :: c2 :: rest)
        [] [] =
      .err (.RequestError "Failed to collect storage request data") := by
  cases c2 with
  | nil => exact absurd rfl h2
  | cons s2 r2 =>
    obtain ⟨Q, hcol, hQ, hlen⟩ := collectBatch_spec replay address c1 [] []
      (fun p hp => absurd hp (List.not_mem_nil p))
    simp only [List.length_nil, Nat.zero_add] at hcol hlen
    rw [fetchChunksLoop_cons, hcol]
    dsimp only
    rw [fetchChunksLoop_cons]
    cases Q with
    | nil =>
      cases c1 with
      | nil => exact absurd rfl h1
      | cons s1 r1 => simp at hlen
    | cons q Q' =>
      have hq : q.2 = true := hQ q (List.mem_cons_self q Q')
      have h0 : ((q :: Q') ++ (s2 :: r2).map (fun slot => (slot, false)))[0]? =
          some (q.1, true) := by
        simp only [List.cons_append, List.getElem?_cons_zero]
        rw [← hq]
      rw [collectBatch_consumed replay address _ s2 r2 _ q.1 h0]

/-! ## Claim C7 — storage-slot zero-clearing -/

/-- C7: in the batched extractor's specific-slot fetch, whenever the call
returns a storage map, a response of 32 zero bytes for a requested slot is
recorded as `None` (cleared), and any other response is recorded as `Some`
of exactly the returned bytes.  Slot lists longer than one `max_batch`
chunk never return a map: the per-batch indexing of the accumulated
`storage_requests` vec re-awaits consumed futures and the call fails with
`RequestError` (`fetchChunksLoop_two_err`). -/
theorem c7_zero_clearing (replay : RpcReplay) (block : Block) (max_batch : Nat)
    (request : StorageSnapshotRequest) (slots : List Bytes) (slot : Bytes)
    (m : List (Bytes × Option Bytes))
    (hs : request.slots = some slots)
    (hok : EVMBatchAccountExtractor.fetch_account_storage replay block max_batch
      request = .ok m)
    (hm : slot ∈ slots) :
    mapLookup m slot =
      some (if replay.storageAt request.address slot = List.replicate 32 0
            then none else some (replay.storageAt request.address slot)) := by
  unfold EVMBatchAccountExtractor.fetch_account_storage at hok
  rw [hs] at hok
  dsimp only at hok
  cases hch : chunksOf max_batch slots with
  | nil =>
    have hnil : slots = [] := by
      rw [← chunksOf_flatten max_batch slots, hch]
      rfl
    rw [hnil] at hm
    exact absurd hm (List.not_mem_nil slot)
  | cons c1 cs =>
    cases cs with
    | nil =>
      have hc1 : c1 = slots := by
        rw [← chunksOf_flatten max_batch slots, hch]
        simp
      rw [hch, fetchChunksLoop_single replay request.address c1] at hok
      simp only [RustOutcome.ok.injEq] at hok
      rw [← hok, hc1]
      rw [mapLookup_foldl_insert_fn (fun s => s)
        (fun slot =>
          if replay.storageAt request.address slot = List.replicate 32 0
          then none else some (replay.storageAt request.address slot)) slots [] slot]
      rw [lastWith_mem_self slots slot hm]
    | cons c2 rest =>
      have h1 : c1 ≠ [] := chunksOf_mem_ne_nil max_batch slots c1
        (by rw [hch]; exact List.mem_cons_self _ _)
      have h2 : c2 ≠ [] := chunksOf_mem_ne_nil max_batch slots c2
        (by rw [hch]; exact List.mem_cons_of_mem _ (List.mem_cons_self _ _))
      rw [hch, fetchChunksLoop_two_err replay request.address c1 c2 rest h1 h2]
        at hok
      exact absurd hok (by simp)

/-- A fixed replay for the extractor witnesses: slot `[2]` reads as 32 zero
bytes, every other slot as `[7]`. -/
def exReplay : RpcReplay :=
  { code := fun _ => [0x60]
    balance := fun _ => List.replicate 32 0
    storageAt := fun _ slot => if slot = [2] then List.replicate 32 0 else [7]
    storagePages := fun _ => [[([1], [5])]] }

def exBlock : Block :=
  { chain := .Ethereum, number := 20378314, hash := [0x7F], parent_hash := [], ts := 0 }

/-- C7, witness: with the concrete replay, the two-slot request fits in a
single 10000-slot chunk and succeeds; the all-zero slot `[2]` is recorded
as cleared (`None`) and the non-zero slot `[1]` keeps its exact bytes. -/
theorem c7_witness :
    mapLookup [([1], some [7]), ([2], (none : Option Bytes))] [2] =
      some (if exReplay.storageAt [0xBA] [2] = List.replicate 32 0
            then none else some (exReplay.storageAt [0xBA] [2])) ∧
    (if exReplay.storageAt [0xBA] [2] = List.replicate 32 0
     then (none : Option Bytes) else some (exReplay.storageAt [0xBA] [2])) = none :=
  ⟨c7_zero_clearing exReplay exBlock EVMBatchAccountExtractor.storage_max_batch_size
      { address := [0xBA], slots := some [[1], [2]] } [[1], [2]] [2]
      [([1], some [7]), ([2], none)] rfl (by decide) (by decide),
   by decide⟩

/-! ## Claim C8 — request deduplication -/

/-- C8: the batched extractor's `get_accounts_at_block` is invariant under
duplicating a request: adding an extra copy of a request that already
occurs in the list changes neither the returned address map nor the
sequence of RPC calls issued. -/
theorem c8_dedup (replay : RpcReplay) (chain : Chain) (block : Block)
    (l₁ l₂ : List StorageSnapshotRequest) (r : StorageSnapshotRequest)
    (hr : r ∈ l₁) :
    EVMBatchAccountExtractor.get_accounts_at_block replay chain block (l₁ ++ r :: l₂) =
      EVMBatchAccountExtractor.get_accounts_at_block replay chain block (l₁ ++ l₂) ∧
    EVMBatchAccountExtractor.issuedCalls replay block (l₁ ++ r :: l₂) =
      EVMBatchAccountExtractor.issuedCalls replay block (l₁ ++ l₂) := by
  constructor
  · unfold EVMBatchAccountExtractor.get_accounts_at_block
    rw [dedupKeepFirst_drop_dup l₁ l₂ r hr]
  · unfold EVMBatchAccountExtractor.issuedCalls
    rw [dedupKeepFirst_drop_dup l₁ l₂ r hr]

def c8ExRequest : StorageSnapshotRequest := { address := [0xBA], slots := some [[1]] }

/-- C8, witness: a duplicated concrete request produces the same result map
and the same issued calls as the single copy. -/
theorem c8_witness :
    EVMBatchAccountExtractor.get_accounts_at_block exReplay .Ethereum exBlock
        [c8ExRequest, c8ExRequest] =
      EVMBatchAccountExtractor.get_accounts_at_block exReplay .Ethereum exBlock
        [c8ExRequest] ∧
    EVMBatchAccountExtractor.issuedCalls exReplay exBlock [c8ExRequest, c8ExRequest] =
      EVMBatchAccountExtractor.issuedCalls exReplay exBlock [c8ExRequest] :=
  c8_dedup exReplay .Ethereum exBlock [c8ExRequest] [] c8ExRequest
    (List.mem_singleton.mpr rfl)

/-! ## Claim C9 — realtime client `subscribe` -/

/-- C9, counterexample: `subscribe` does not register interest and does not
return a `TychoClientError` — it unconditionally panics
(`panic!("Not implemented")`), aborting instead of returning. -/
theorem c9_counterexample :
    TychoWsClientImpl.subscribe { uri := "ws://localhost:4242" }
        { chain := .Ethereum, name := "vm:ambient" } = .panics "Not implemented" ∧
    RustOutcome.isOk
      (TychoWsClientImpl.subscribe { uri := "ws://localhost:4242" }
        { chain := .Ethereum, name := "vm:ambient" }) = false := ⟨rfl, rfl⟩

/-- C9, amended: `TychoWsClientImpl::subscribe` is an unimplemented stub:
for every client and extractor identity it panics with "Not implemented",
never succeeding and never returning a `TychoClientError`. -/
theorem c9_subscribe_panics (client : TychoWsClientImpl)
    (extractor_id : ExtractorIdentity) :
    client.subscribe extractor_id = .panics "Not implemented" := rfl

/-! ## Claim C10 — full-dump requests never record cleared slots -/

/-- C10: slot values obtained through `debug_storageRangeAt` are always
`Some`: the batched extractor's `fetch_account_storage` on a request with
`slots = None` yields only `Some` values, and every `AccountDelta` the
single-call extractor returns has only `Some` slot values (it always uses
the full dump).  The `None`-clearing convention is reachable only through
specific-slot requests on the batched extractor. -/
theorem c10_full_dump_all_some :
    (∀ (replay : RpcReplay) (block : Block) (max_batch : Nat)
        (request : StorageSnapshotRequest) (m : List (Bytes × Option Bytes)),
      request.slots = none →
      EVMBatchAccountExtractor.fetch_account_storage replay block max_batch request =
        .ok m →
      ∀ p ∈ m, p.2.isSome = true) ∧
    (∀ (replay : RpcReplay) (chain : Chain) (block : Block)
        (requests : List StorageSnapshotRequest) (addr : Bytes) (delta : AccountDelta),
      mapLookup (EVMAccountExtractor.get_accounts_at_block replay chain block requests)
          addr = some delta →
      ∀ p ∈ delta.slots, p.2.isSome = true) := by
  constructor
  · intro replay block max_batch request m hnone hok p hp
    unfold EVMBatchAccountExtractor.fetch_account_storage at hok
    rw [hnone] at hok
    dsimp only at hok
    simp only [RustOutcome.ok.injEq] at hok
    rw [← hok] at hp
    exact foldl_insert_all_pred (fun (v : Option Bytes) => v.isSome = true)
      (fun (kv : Bytes × Bytes) => kv.1) (fun (kv : Bytes × Bytes) => some kv.2)
      (EVMBatchAccountExtractor.get_storage_range replay request.address) []
      (fun q hq => absurd hq (List.not_mem_nil q)) (fun a _ => rfl) p hp
  · intro replay chain block requests addr delta hl p hp
    unfold EVMAccountExtractor.get_accounts_at_block at hl
    have hmem := mapLookup_mem _ _ _ hl
    have hval : ∀ request ∈ requests,
        ∀ q ∈ ((EVMAccountExtractor.get_storage_range replay
            (StorageSnapshotRequest.address request)).foldl
          (fun acc (kv : Bytes × Bytes) => mapInsert acc kv.1 (some kv.2)) []),
          (Prod.snd q).isSome = true := by
      intro request _
      exact foldl_insert_all_pred (fun (v : Option Bytes) => v.isSome = true)
        (fun (kv : Bytes × Bytes) => kv.1) (fun (kv : Bytes × Bytes) => some kv.2)
        (EVMAccountExtractor.get_storage_range replay request.address) []
        (fun q hq => absurd hq (List.not_mem_nil q)) (fun a _ => rfl)
    have hall := foldl_insert_all_pred
      (fun (d : AccountDelta) => ∀ q ∈ d.slots, q.2.isSome = true)
      (fun (request : StorageSnapshotRequest) => request.address)
      (fun (request : StorageSnapshotRequest) =>
        ({ address := request.address, chain := chain
           slots := (EVMAccountExtractor.get_storage_range replay request.address).foldl
             (fun acc (kv : Bytes × Bytes) => mapInsert acc kv.1 (some kv.2)) []
           balance := some (replay.balance request.address)
           code := some (replay.code request.address)
           change := .Creation } : AccountDelta))
      requests [] (fun q hq => absurd hq (List.not_mem_nil q)) hval
    exact hall (addr, delta) hmem p hp

/-- C10, witness: the concrete full-dump request on the batched extractor
succeeds with slot `[1]` stored under a `Some` value. -/
theorem c10_witness :
    EVMBatchAccountExtractor.fetch_account_storage exReplay exBlock
        EVMBatchAccountExtractor.storage_max_batch_size
        { address := [0xBA], slots := none } = .ok [([1], some [5])] ∧
    (some [5] : Option Bytes).isSome = true :=
  ⟨by decide,
   c10_full_dump_all_some.1 exReplay exBlock
      EVMBatchAccountExtractor.storage_max_batch_size
      { address := [0xBA], slots := none } [([1], some [5])] rfl (by decide)
      (([1], some [5])) (by decide)⟩

/-! ## Claim C4 — missing transaction in a per-transaction change -/

/-- A `BlockContractChanges` message whose only change has no `tx`. -/
def c4ExMsg : pb.BlockContractChanges :=
  { block := some { number := 1, hash := [0xBB], parent_hash := [], ts := 420 }
    changes := [ { tx := none, contract_changes := [], component_changes := [],
                   balance_changes := [] } ] }

/-- C4, counterexample: `BlockContractChanges::try_from_message` does NOT
fail on a change with a missing `tx` — the change is silently skipped and
the decode succeeds with an empty `tx_updates` list. -/
theorem c4_counterexample :
    BlockContractChanges.try_from_message c4ExMsg "test" .Ethereum "ambient"
        ["Pool"] 0 =
      .ok { extractor := "test", chain := .Ethereum
            block := { chain := .Ethereum, number := 1, hash := [0xBB],
                       parent_hash := [], ts := 420 }
            finalized_block_height := 0, revert := false, tx_updates := [] } := by
  decide

/-- C4, amended: a per-transaction change with a missing `tx` makes the
whole decode of `BlockChanges` and of `BlockEntityChanges` fail with a
`DecodeError` ("…misses a transaction" when it is the first failure), but
`BlockContractChanges` silently skips such changes: its decode equals the
decode of the message with the tx-less changes filtered out. -/
theorem c4_missing_tx :
    (∀ (msg : pb.BlockChanges) (extractor : String) (chain : Chain) (ps : String)
        (pts : List String) (fbh : Nat) (b : pb.Block),
      msg.block = some b → (∃ c ∈ msg.changes, c.tx = none) →
      ∃ s, BlockChanges.try_from_message msg extractor chain ps pts fbh =
        .err (.DecodeError s)) ∧
    (∀ (msg : pb.BlockEntityChanges) (extractor : String) (chain : Chain)
        (ps : String) (pts : List String) (fbh : Nat) (b : pb.Block),
      msg.block = some b → (∃ c ∈ msg.changes, c.tx = none) →
      ∃ s, BlockEntityChanges.try_from_message msg extractor chain ps pts fbh =
        .err (.DecodeError s)) ∧
    (∀ (msg : pb.BlockContractChanges) (extractor : String) (chain : Chain)
        (ps : String) (pts : List String) (fbh : Nat),
      BlockContractChanges.try_from_message msg extractor chain ps pts fbh =
        BlockContractChanges.try_from_message
          { msg with changes := msg.changes.filter (fun c => c.tx.isSome) }
          extractor chain ps pts fbh) := by
  refine ⟨?_, ?_, ?_⟩
  · intro msg extractor chain ps pts fbh b hb hex
    obtain ⟨c, hc, hctx⟩ := hex
    unfold BlockChanges.try_from_message
    rw [hb]
    dsimp only
    cases hblk : Block.try_from_message b chain with
    | err e =>
      have hf := block_failures b chain
      rw [hblk] at hf
      cases e with
      | Empty => exact absurd hf (by simp [onlyDecodeFailures])
      | DecodeError s => exact ⟨s, rfl⟩
    | panics m =>
      have hf := block_failures b chain
      rw [hblk] at hf
      exact absurd hf (by simp [onlyDecodeFailures])
    | ok block =>
      have hfail : ∀ b', blockChangesTxStep block ps pts c ≠ .ok b' := by
        intro b' hb'
        unfold blockChangesTxStep at hb'
        rw [hctx] at hb'
        exact absurd hb' (by simp)
      have hnotok := outMapM_not_ok (blockChangesTxStep block ps pts) msg.changes c hc hfail
      have hodf : onlyDecodeFailures (outMapM (blockChangesTxStep block ps pts) msg.changes) := by
        refine onlyDecodeFailures_outMapM _ _ (fun a _ => ?_)
        unfold blockChangesTxStep
        cases ht : a.tx with
        | none => trivial
        | some txMsg => exact txWithChanges_failures a block ps pts txMsg ht
      obtain ⟨s, hs⟩ := decodeError_of_not_ok _ hodf hnotok
      refine ⟨s, ?_⟩
      dsimp only [RustOutcome.bind]
      rw [hs]
  · intro msg extractor chain ps pts fbh b hb hex
    obtain ⟨c, hc, hctx⟩ := hex
    unfold BlockEntityChanges.try_from_message
    rw [hb]
    dsimp only
    cases hblk : Block.try_from_message b chain with
    | err e =>
      have hf := block_failures b chain
      rw [hblk] at hf
      cases e with
      | Empty => exact absurd hf (by simp [onlyDecodeFailures])
      | DecodeError s => exact ⟨s, rfl⟩
    | panics m =>
      have hf := block_failures b chain
      rw [hblk] at hf
      exact absurd hf (by simp [onlyDecodeFailures])
    | ok block =>
      have hfail : ∀ b', entityTxStep block ps pts c ≠ .ok b' := by
        intro b' hb'
        unfold entityTxStep at hb'
        rw [hctx] at hb'
        exact absurd hb' (by simp)
      have hnotok := outMapM_not_ok (entityTxStep block ps pts) msg.changes c hc hfail
      have hodf : onlyDecodeFailures (outMapM (entityTxStep block ps pts) msg.changes) := by
        refine onlyDecodeFailures_outMapM _ _ (fun a _ => ?_)
        unfold entityTxStep
        cases ht : a.tx with
        | none => trivial
        | some txMsg => exact protocolChangesWithTx_failures a block ps pts txMsg ht
      obtain ⟨s, hs⟩ := decodeError_of_not_ok _ hodf hnotok
      refine ⟨s, ?_⟩
      dsimp only [RustOutcome.bind]
      rw [hs]
      rfl
  · intro msg extractor chain ps pts fbh
    unfold BlockContractChanges.try_from_message
    cases hb : msg.block with
    | none => rfl
    | some b =>
      dsimp only
      cases hblk : Block.try_from_message b chain with
      | err e => rfl
      | panics m => rfl
      | ok block =>
        dsimp only [RustOutcome.bind]
        have hskip : ∀ (s : List AccountChangesWithTx)
            (c : pb.TransactionContractChanges),
            (fun (c : pb.TransactionContractChanges) => c.tx.isSome) c = false →
            blockContractChangeStep chain ps pts block s c = .ok s := by
          intro s c hcf
          unfold blockContractChangeStep
          cases hct : c.tx with
          | none => rfl
          | some t =>
            have hcf' : c.tx.isSome = false := hcf
            rw [hct] at hcf'
            exact absurd hcf' (by simp)
        show (foldDecode (blockContractChangeStep chain ps pts block) []
                msg.changes).map _ =
             (foldDecode (blockContractChangeStep chain ps pts block) []
                (msg.changes.filter (fun c => c.tx.isSome))).map _
        rw [foldDecode_filter_skip (blockContractChangeStep chain ps pts block)
          (fun c => c.tx.isSome) hskip msg.changes []]

/-- A `BlockChanges` message whose only change has no `tx`. -/
def c4WitMsg : pb.BlockChanges :=
  { block := some { number := 1, hash := [0xBB], parent_hash := [], ts := 420 }
    changes := [ { tx := none, contract_changes := [], entity_changes := [],
                   component_changes := [], balance_changes := [],
                   entrypoints := [], entrypoint_params := [] } ]
    storage_changes := [] }

/-- C4, witness: on the concrete tx-less message, `BlockChanges` decoding
does not succeed (it fails with a `DecodeError`). -/
theorem c4_witness :
    RustOutcome.isOk (BlockChanges.try_from_message c4WitMsg "test" .Ethereum
      "ambient" ["Pool"] 0) = false := by
  obtain ⟨s, hs⟩ := c4_missing_tx.1 c4WitMsg "test" .Ethereum "ambient" ["Pool"] 0
    { number := 1, hash := [0xBB], parent_hash := [], ts := 420 } rfl
    ⟨{ tx := none, contract_changes := [], entity_changes := [],
       component_changes := [], balance_changes := [],
       entrypoints := [], entrypoint_params := [] },
     List.mem_singleton.mpr rfl, rfl⟩
  rw [hs]
  rfl

/-! ## Claim C5 — protocol-type registry enforcement -/

/-- If a `TxWithChanges` decode succeeds, every component message in it
decoded successfully (for the decoded transaction's hash). -/
theorem txWithChanges_ok_components (msg : pb.TransactionChanges) (block : Block)
    (ps : String) (pts : List String) (r : TxWithChanges)
    (h : TxWithChanges.try_from_message msg block ps pts = .ok r) :
    ∀ comp ∈ msg.component_changes, ∃ (tx_hash : Bytes) (pc : ProtocolComponent),
      ProtocolComponent.try_from_message comp block.chain ps pts tx_hash block.ts =
        .ok pc := by
  unfold TxWithChanges.try_from_message at h
  cases htx : msg.tx with
  | none => rw [htx] at h; exact absurd h (by simp)
  | some txMsg =>
    rw [htx] at h
    dsimp only at h
    obtain ⟨tx, htxok, h⟩ := bind_ok_inversion _ _ _ h
    obtain ⟨comps, hcomps, h⟩ := bind_ok_inversion _ _ _ h
    have heq : foldDecode (componentStepById block.chain ps pts tx.hash block.ts) []
        msg.component_changes =
      (outMapM (fun change => ProtocolComponent.try_from_message change block.chain
          ps pts tx.hash block.ts) msg.component_changes).map
        (fun xs => xs.foldl (fun s component => mapInsert s component.id component) []) :=
      foldDecode_map_eq _ _ _ []
    rw [heq] at hcomps
    obtain ⟨xs, hxs, _⟩ := map_ok_inversion _ _ _ hcomps
    intro comp hcm
    obtain ⟨pc, hpc⟩ := outMapM_ok_of_mem _ _ _ hxs comp hcm
    exact ⟨tx.hash, pc, hpc⟩

/-- C5: a new protocol component whose `protocol_type.name` is not a key of
the caller-supplied registry makes the whole `BlockChanges` decode fail
with a `DecodeError`; no `BlockChanges` value is returned. -/
theorem c5_registry_enforcement (msg : pb.BlockChanges) (extractor : String)
    (chain : Chain) (ps : String) (pts : List String) (fbh : Nat) (b : pb.Block)
    (hb : msg.block = some b)
    (hbad : ∃ change ∈ msg.changes, ∃ comp ∈ change.component_changes,
      ∃ pt, comp.protocol_type = some pt ∧ pt.name ∉ pts) :
    ∃ s, BlockChanges.try_from_message msg extractor chain ps pts fbh =
      .err (.DecodeError s) := by
  obtain ⟨change, hcm, comp, hcc, pt, hpt, hname⟩ := hbad
  unfold BlockChanges.try_from_message
  rw [hb]
  dsimp only
  cases hblk : Block.try_from_message b chain with
  | err e =>
    have hf := block_failures b chain
    rw [hblk] at hf
    cases e with
    | Empty => exact absurd hf (by simp [onlyDecodeFailures])
    | DecodeError s => exact ⟨s, rfl⟩
  | panics m =>
    have hf := block_failures b chain
    rw [hblk] at hf
    exact absurd hf (by simp [onlyDecodeFailures])
  | ok block =>
    have hfail : ∀ b', blockChangesTxStep block ps pts change ≠ .ok b' := by
      intro b' hb'
      unfold blockChangesTxStep at hb'
      cases hct : change.tx with
      | none =>
        rw [hct] at hb'
        exact absurd hb' (by simp)
      | some t =>
        rw [hct] at hb'
        dsimp only at hb'
        obtain ⟨tx_hash, pc, hpc⟩ :=
          txWithChanges_ok_components change block ps pts b' hb' comp hcc
        rw [protocolComponent_unknown_name comp block.chain ps pts tx_hash block.ts
          pt hpt hname] at hpc
        exact absurd hpc (by simp)
    have hnotok := outMapM_not_ok (blockChangesTxStep block ps pts) msg.changes
      change hcm hfail
    have hodf : onlyDecodeFailures
        (outMapM (blockChangesTxStep block ps pts) msg.changes) := by
      refine onlyDecodeFailures_outMapM _ _ (fun a _ => ?_)
      unfold blockChangesTxStep
      cases ht : a.tx with
      | none => trivial
      | some txMsg => exact txWithChanges_failures a block ps pts txMsg ht
    obtain ⟨s, hs⟩ := decodeError_of_not_ok _ hodf hnotok
    refine ⟨s, ?_⟩
    dsimp only [RustOutcome.bind]
    rw [hs]

/-- A `BlockChanges` message with a component whose protocol-type name is
not registered. -/
def c5WitMsg : pb.BlockChanges :=
  { block := some { number := 1, hash := [0xBB], parent_hash := [], ts := 420 }
    changes := [ { tx := some { hash := [0x11], from_ := [0x22], to_ := [], index := 0 }
                   contract_changes := []
                   entity_changes := []
                   component_changes :=
                     [ { id := "pool1", tokens := [], contracts := [], static_att := []
                         change := .Creation, protocol_type := some { name := "Nope" } } ]
                   balance_changes := []
                   entrypoints := []
                   entrypoint_params := [] } ]
    storage_changes := [] }

/-- C5, witness: on the concrete message whose component names the
unregistered protocol type "Nope", the whole decode does not succeed (it
fails with a `DecodeError`). -/
theorem c5_witness :
    RustOutcome.isOk (BlockChanges.try_from_message c5WitMsg "test" .Ethereum
      "ambient" ["Pool"] 0) = false := by
  obtain ⟨s, hs⟩ := c5_registry_enforcement c5WitMsg "test" .Ethereum "ambient"
    ["Pool"] 0
    { number := 1, hash := [0xBB], parent_hash := [], ts := 420 } rfl
    ⟨{ tx := some { hash := [0x11], from_ := [0x22], to_ := [], index := 0 }
       contract_changes := [], entity_changes := []
       component_changes :=
         [ { id := "pool1", tokens := [], contracts := [], static_att := []
             change := .Creation, protocol_type := some { name := "Nope" } } ]
       balance_changes := [], entrypoints := [], entrypoint_params := [] },
     List.mem_singleton.mpr rfl,
     { id := "pool1", tokens := [], contracts := [], static_att := []
       change := .Creation, protocol_type := some { name := "Nope" } },
     List.mem_singleton.mpr rfl,
     { name := "Nope" }, rfl, by decide⟩
  rw [hs]
  rfl

/-! ## Claim C1 — ordering of decoded per-transaction lists -/

/-- A `BlockChanges` message whose storage changes arrive with descending
transaction indices (2 then 1). -/
def c1ExMsg : pb.BlockChanges :=
  { block := some { number := 1, hash := [0xBB], parent_hash := [], ts := 420 }
    changes := []
    storage_changes :=
      [ { tx := some { hash := [0x11], from_ := [], to_ := [], index := 2 }
          storage_changes := [] },
        { tx := some { hash := [0x12], from_ := [], to_ := [], index := 1 }
          storage_changes := [] } ] }

/-- C1, counterexample: the decoder accepts `c1ExMsg` but returns its
`block_storage_changes` in message order `[2, 1]` — not sorted by
`tx.index`; only `txs_with_update` is sorted. -/
theorem c1_counterexample :
    (BlockChanges.try_from_message c1ExMsg "test" .Ethereum "ambient" ["Pool"] 0).map
        (fun r => r.block_storage_changes.map (fun t => t.tx.index)) =
      .ok [2, 1] ∧
    ¬ sortedByKey (fun n => n) [2, 1] := by
  constructor
  · decide
  · unfold sortedByKey
    decide

/-- C1, amended: for every accepted substreams block message,
`txs_with_update` is sorted by `tx.index` ascending (via
`sort_unstable_by_key`, which does not guarantee stability for equal
indices), both for `BlockChanges` and for `BlockEntityChanges`; the
`block_storage_changes` list is NOT sorted — it is exactly the
message-order decode of the storage changes. -/
theorem c1_decoded_ordering :
    (∀ (msg : pb.BlockChanges) (extractor : String) (chain : Chain) (ps : String)
        (pts : List String) (fbh : Nat) (r : BlockChanges),
      BlockChanges.try_from_message msg extractor chain ps pts fbh = .ok r →
      sortedByKey (fun u => u.tx.index) r.txs_with_update ∧
      outMapM (fun change => TxWithStorageChanges.try_from_message change r.block)
        msg.storage_changes = .ok r.block_storage_changes) ∧
    (∀ (msg : pb.BlockEntityChanges) (extractor : String) (chain : Chain)
        (ps : String) (pts : List String) (fbh : Nat) (r : BlockEntityChanges),
      BlockEntityChanges.try_from_message msg extractor chain ps pts fbh = .ok r →
      sortedByKey (fun u => u.tx.index) r.txs_with_update) := by
  constructor
  · intro msg extractor chain ps pts fbh r h
    unfold BlockChanges.try_from_message at h
    cases hb : msg.block with
    | none => rw [hb] at h; exact absurd h (by simp)
    | some blockMsg =>
      rw [hb] at h
      dsimp only at h
      obtain ⟨block, hblock, h⟩ := bind_ok_inversion _ _ _ h
      obtain ⟨txs, htxs, h⟩ := bind_ok_inversion _ _ _ h
      obtain ⟨storage, hstorage, hrec⟩ := map_ok_inversion _ _ _ h
      constructor
      · rw [← hrec]
        exact sortedByKey_sortByKey _ _
      · rw [← hrec]
        exact hstorage
  · intro msg extractor chain ps pts fbh r h
    unfold BlockEntityChanges.try_from_message at h
    cases hb : msg.block with
    | none => rw [hb] at h; exact absurd h (by simp)
    | some blockMsg =>
      rw [hb] at h
      dsimp only at h
      obtain ⟨block, hblock, h⟩ := bind_ok_inversion _ _ _ h
      obtain ⟨txs, htxs, hrec⟩ := map_ok_inversion _ _ _ h
      rw [← hrec]
      exact sortedByKey_sortByKey _ _

/-- The result of decoding `c1ExMsg`. -/
def c1ExResult : BlockChanges :=
  { extractor := "test", chain := .Ethereum
    block := { chain := .Ethereum, number := 1, hash := [0xBB], parent_hash := [],
               ts := 420 }
    finalized_block_height := 0, revert := false
    txs_with_update := []
    block_storage_changes :=
      [ { tx := { hash := [0x11], block_hash := [0xBB], from_ := [], to_ := none,
                  index := 2 }
          storage_changes := [] },
        { tx := { hash := [0x12], block_hash := [0xBB], from_ := [], to_ := none,
                  index := 1 }
          storage_changes := [] } ] }

/-- C1, witness: the amended ordering theorem instantiated on `c1ExMsg`. -/
theorem c1_witness :
    sortedByKey (fun u => u.tx.index) c1ExResult.txs_with_update ∧
    outMapM (fun change => TxWithStorageChanges.try_from_message change c1ExResult.block)
      c1ExMsg.storage_changes = .ok c1ExResult.block_storage_changes :=
  c1_decoded_ordering.1 c1ExMsg "test" .Ethereum "ambient" ["Pool"] 0 c1ExResult
    (by decide)

/-! ## Claim C3 — last-writer-wins collision policy -/

/-- The utf8-first balance step equals the step keyed by the decoded
balance's own fields: `ComponentBalance` decoding succeeds exactly when the
component id utf8-decodes, and then `component_id`/`token` coincide with
the message fields. -/
theorem componentBalanceUtf8Step_eq (tx : Transaction) :
    ∀ (s : List (String × List (Bytes × ComponentBalance)))
      (bc : pb.BalanceChange),
      componentBalanceUtf8Step tx s bc = componentBalanceStep tx s bc := by
  intro s bc
  unfold componentBalanceUtf8Step componentBalanceStep
  cases hu : stringFromUtf8 bc.component_id with
  | none => simp [ComponentBalance.try_from_message, hu, RustOutcome.map]
  | some cid => simp [ComponentBalance.try_from_message, hu, RustOutcome.map]

/-- C3: within one decoded transaction the later writer wins.  For both
`TxWithChanges` and `ProtocolChangesWithTx`: the decoded state-update map
at any `component_id` is the LAST state delta of the message with that id
(so two deltas on the same id resolve to the second, with no error), and
the decoded balance map at any `(component_id, token)` pair is the last
matching balance change of the message. -/
theorem c3_last_writer_wins :
    (∀ (msg : pb.TransactionChanges) (block : Block) (ps : String)
        (pts : List String) (r : TxWithChanges)
        (ds : List ProtocolComponentStateDelta) (bs : List ComponentBalance),
      TxWithChanges.try_from_message msg block ps pts = .ok r →
      outMapM ProtocolComponentStateDelta.try_from_message msg.entity_changes =
        .ok ds →
      outMapM (fun bc => ComponentBalance.try_from_message bc r.tx)
        msg.balance_changes = .ok bs →
      (∀ cid, mapLookup r.state_updates cid =
        lastWith (fun d => d.component_id = cid) ds) ∧
      (∀ cid token, mapLookup2 r.balance_changes cid token =
        lastWith (fun b => b.component_id = cid && b.token = token) bs)) ∧
    (∀ (msg : pb.TransactionEntityChanges) (block : Block) (ps : String)
        (pts : List String) (r : ProtocolChangesWithTx)
        (ds : List ProtocolComponentStateDelta) (bs : List ComponentBalance),
      ProtocolChangesWithTx.try_from_message msg block ps pts = .ok r →
      outMapM ProtocolComponentStateDelta.try_from_message msg.entity_changes =
        .ok ds →
      outMapM (fun bc => ComponentBalance.try_from_message bc r.tx)
        msg.balance_changes = .ok bs →
      (∀ cid, mapLookup r.protocol_states cid =
        lastWith (fun d => d.component_id = cid) ds) ∧
      (∀ cid token, mapLookup2 r.balance_changes cid token =
        lastWith (fun b => b.component_id = cid && b.token = token) bs)) := by
  constructor
  · intro msg block ps pts r ds bs h hds hbs
    unfold TxWithChanges.try_from_message at h
    cases htx : msg.tx with
    | none => rw [htx] at h; exact absurd h (by simp)
    | some txMsg =>
      rw [htx] at h
      dsimp only at h
      obtain ⟨tx, htxok, h⟩ := bind_ok_inversion _ _ _ h
      obtain ⟨comps, hcomps, h⟩ := bind_ok_inversion _ _ _ h
      obtain ⟨accounts, haccounts, h⟩ := bind_ok_inversion _ _ _ h
      obtain ⟨states, hstates, h⟩ := bind_ok_inversion _ _ _ h
      obtain ⟨balances, hbalances, h⟩ := bind_ok_inversion _ _ _ h
      obtain ⟨acct_bals, hacct, h⟩ := bind_ok_inversion _ _ _ h
      obtain ⟨eps, heps, h⟩ := bind_ok_inversion _ _ _ h
      obtain ⟨ep_params, hepp, hrec⟩ := map_ok_inversion _ _ _ h
      have hrtx : r.tx = tx := by rw [← hrec]
      have hrstates : r.state_updates = states := by rw [← hrec]
      have hrbal : r.balance_changes = balances := by rw [← hrec]
      rw [hrtx] at hbs
      constructor
      · intro cid
        rw [hrstates]
        have heqS : foldDecode stateUpdateStep [] msg.entity_changes =
            (outMapM ProtocolComponentStateDelta.try_from_message
              msg.entity_changes).map
              (fun xs => xs.foldl
                (fun s state => mapInsert s state.component_id state) []) :=
          foldDecode_map_eq _ _ _ []
        rw [heqS, hds] at hstates
        simp only [RustOutcome.map, RustOutcome.ok.injEq] at hstates
        rw [← hstates]
        rw [mapLookup_foldl_insert_fn
          (fun (d : ProtocolComponentStateDelta) => d.component_id)
          (fun d => d) ds [] cid]
        cases hlw : lastWith (fun d => d.component_id = cid) ds with
        | some a => rfl
        | none => rfl
      · intro cid token
        rw [hrbal]
        have hcongr : foldDecode (componentBalanceUtf8Step tx) []
            msg.balance_changes =
            foldDecode (componentBalanceStep tx) [] msg.balance_changes :=
          foldDecode_congr _ _ (componentBalanceUtf8Step_eq tx) _ []
        have heqB : foldDecode (componentBalanceStep tx) [] msg.balance_changes =
            (outMapM (fun bc => ComponentBalance.try_from_message bc tx)
              msg.balance_changes).map
              (fun xs => xs.foldl
                (fun s cb => mapInsert s cb.component_id
                  (mapInsert ((mapLookup s cb.component_id).getD [])
                    cb.token cb)) []) :=
          foldDecode_map_eq _ _ _ []
        rw [hcongr, heqB, hbs] at hbalances
        simp only [RustOutcome.map, RustOutcome.ok.injEq] at hbalances
        rw [← hbalances]
        rw [mapLookup2_foldl_nested (fun (cb : ComponentBalance) => cb.component_id)
          (fun cb => cb.token) bs [] cid token]
        cases hlw : lastWith (fun b => b.component_id = cid && b.token = token) bs with
        | some a => rfl
        | none => rfl
  · intro msg block ps pts r ds bs h hds hbs
    unfold ProtocolChangesWithTx.try_from_message at h
    cases htx : msg.tx with
    | none => rw [htx] at h; exact absurd h (by simp)
    | some txMsg =>
      rw [htx] at h
      dsimp only at h
      obtain ⟨tx, htxok, h⟩ := bind_ok_inversion _ _ _ h
      obtain ⟨comps, hcomps, h⟩ := bind_ok_inversion _ _ _ h
      obtain ⟨states, hstates, h⟩ := bind_ok_inversion _ _ _ h
      obtain ⟨balances, hbalances, hrec⟩ := map_ok_inversion _ _ _ h
      have hrtx : r.tx = tx := by rw [← hrec]
      have hrstates : r.protocol_states = states := by rw [← hrec]
      have hrbal : r.balance_changes = balances := by rw [← hrec]
      rw [hrtx] at hbs
      constructor
      · intro cid
        rw [hrstates]
        have heqS : foldDecode stateUpdateStep [] msg.entity_changes =
            (outMapM ProtocolComponentStateDelta.try_from_message
              msg.entity_changes).map
              (fun xs => xs.foldl
                (fun s state => mapInsert s state.component_id state) []) :=
          foldDecode_map_eq _ _ _ []
        rw [heqS, hds] at hstates
        simp only [RustOutcome.map, RustOutcome.ok.injEq] at hstates
        rw [← hstates]
        rw [mapLookup_foldl_insert_fn
          (fun (d : ProtocolComponentStateDelta) => d.component_id)
          (fun d => d) ds [] cid]
        cases hlw : lastWith (fun d => d.component_id = cid) ds with
        | some a => rfl
        | none => rfl
      · intro cid token
        rw [hrbal]
        have heqB : foldDecode (componentBalanceStep tx) [] msg.balance_changes =
            (outMapM (fun bc => ComponentBalance.try_from_message bc tx)
              msg.balance_changes).map
              (fun xs => xs.foldl
                (fun s cb => mapInsert s cb.component_id
                  (mapInsert ((mapLookup s cb.component_id).getD [])
                    cb.token cb)) []) :=
          foldDecode_map_eq _ _ _ []
        rw [heqB, hbs] at hbalances
        simp only [RustOutcome.map, RustOutcome.ok.injEq] at hbalances
        rw [← hbalances]
        rw [mapLookup2_foldl_nested (fun (cb : ComponentBalance) => cb.component_id)
          (fun cb => cb.token) bs [] cid token]
        cases hlw : lastWith (fun b => b.component_id = cid && b.token = token) bs with
        | some a => rfl
        | none => rfl

def c3ExBlock : Block :=
  { chain := .Ethereum, number := 1, hash := [0xBB], parent_hash := [], ts := 420 }

/-- A transaction message with two state deltas for `"poolA"` and two
balance changes for the `("p", [0xAA])` pair. -/
def c3ExMsg : pb.TransactionChanges :=
  { tx := some { hash := [0x11], from_ := [0x22], to_ := [0x33], index := 2 }
    contract_changes := []
    entity_changes :=
      [ { component_id := "poolA"
          attributes := [ { name := "x", value := [1], change := .Update } ] },
        { component_id := "poolA"
          attributes := [ { name := "x", value := [2], change := .Update } ] } ]
    component_changes := []
    balance_changes :=
      [ { token := [0xAA], balance := [1], component_id := [0x70] },
        { token := [0xAA], balance := [2], component_id := [0x70] } ]
    entrypoints := []
    entrypoint_params := [] }

def c3ExResult : TxWithChanges :=
  { tx := { hash := [0x11], block_hash := [0xBB], from_ := [0x22],
            to_ := some [0x33], index := 2 }
    protocol_components := []
    account_deltas := []
    state_updates :=
      [ ("poolA", { component_id := "poolA", updated_attributes := [("x", [2])],
                    deleted_attributes := [] }) ]
    balance_changes :=
      [ ("p", [ ([0xAA], { token := [0xAA], balance := [2],
                           balance_float := .ofInteger 2, modify_tx := [0x11],
                           component_id := "p" }) ]) ]
    account_balance_changes := []
    entrypoints := []
    entrypoint_params := [] }

def c3ExDeltas : List ProtocolComponentStateDelta :=
  [ { component_id := "poolA", updated_attributes := [("x", [1])],
      deleted_attributes := [] },
    { component_id := "poolA", updated_attributes := [("x", [2])],
      deleted_attributes := [] } ]

def c3ExBalances : List ComponentBalance :=
  [ { token := [0xAA], balance := [1], balance_float := .ofInteger 1,
      modify_tx := [0x11], component_id := "p" },
    { token := [0xAA], balance := [2], balance_float := .ofInteger 2,
      modify_tx := [0x11], component_id := "p" } ]

/-- C3, witness: the last-writer-wins theorem instantiated on the concrete
colliding message; `state_updates["poolA"]` is the second delta and the
`("p", [0xAA])` balance is the second balance change. -/
theorem c3_witness :
    mapLookup c3ExResult.state_updates "poolA" =
      lastWith (fun d => d.component_id = "poolA") c3ExDeltas ∧
    mapLookup2 c3ExResult.balance_changes "p" [0xAA] =
      lastWith (fun b => b.component_id = "p" && b.token = [0xAA]) c3ExBalances :=
  ⟨(c3_last_writer_wins.1 c3ExMsg c3ExBlock "ambient" ["Pool"] c3ExResult
      c3ExDeltas c3ExBalances (by decide) (by decide) (by decide)).1 "poolA",
   (c3_last_writer_wins.1 c3ExMsg c3ExBlock "ambient" ["Pool"] c3ExResult
      c3ExDeltas c3ExBalances (by decide) (by decide) (by decide)).2 "p" [0xAA]⟩

end Tycho
